import Mathlib

/-!
# oval-updater: OVAL definition extraction

A shallow embedding of `src/oval-updater/oval.c` (the Definition Record `oval_t`
and its criteria) and of `src/oval-updater/oval-updater.c` (the index build, the
criteria tree walker `extract_criteria` and the driver `process_oval_file`).

* A `char *` is an `Option String`: `none` is the NULL pointer. The text is
  held in UTF-8, as libxml2 returns it: the chars of the C string are the bytes
  of its UTF-8 encoding (`c_chars`), and `strlen` counts those.
* A call that would dereference a NULL `oval_t *` is a fault: the functions
  that can reach one return `Option`, and `none` is the fault.
* The debug stream is the list of `DBG1`/`DBG2`/`DBG3` calls, each a pair of
  the level and the chars of the formatted line, before the filter on the debug
  level.
-/

set_option linter.unusedVariables false

namespace OvalUpdater

/-! ## The parsed XML tree (libxml2) -/

/-- An `xmlNode` of the parsed document: an element with its tag name, its
attributes and its children (the `xmlChildrenNode`/`next` chain, in document
order), or a text node with its content. -/
inductive xmlNode where
  | element (name : String) (properties : List (String × String))
      (children : List xmlNode)
  | text (content : String)
deriving Repr

/-- The field `name` of a node; libxml2 names every text node `text`. -/
def xmlNode.name : xmlNode → String
  | .element n _ _ => n
  | .text _ => "text"

/-- The field `xmlChildrenNode` with the `next` chain of the children. -/
def xmlNode.xmlChildrenNode : xmlNode → List xmlNode
  | .element _ _ cs => cs
  | .text _ => []

/-- The libxml2 character class `IS_BLANK_CH`: space, tab, line feed, carriage
return. -/
def IS_BLANK_CH (c : Char) : Bool :=
  c == ' ' || c == '\t' || c == '\n' || c == '\r'

/-- The libxml2 test `xmlIsBlankNode`: a text node all of whose characters are
blank. An element is never blank. -/
def xmlIsBlankNode : xmlNode → Bool
  | .element _ _ _ => false
  | .text s => s.toList.all IS_BLANK_CH

/-- The libxml2 accessor `xmlGetProp`: the value of the first attribute of that
name, NULL when the node has none. -/
def xmlGetProp : xmlNode → String → Option String
  | .element _ ps _, name => (ps.find? (fun p => p.1 == name)).map (fun p => p.2)
  | .text _, _ => none

mutual
/-- The text of a node as `xmlNodeGetContent` collects it: the content of a
text node, and for an element the concatenation of the text below it. -/
def xmlNode.content : xmlNode → String
  | .element _ _ cs => xmlNode.contentList cs
  | .text s => s
/-- The concatenated text of a chain of siblings. -/
def xmlNode.contentList : List xmlNode → String
  | [] => ""
  | c :: cs => xmlNode.content c ++ xmlNode.contentList cs
end

/-- The libxml2 accessor `xmlNodeGetContent`: never NULL on an element or a text
node (an empty element gives the empty string). -/
def xmlNodeGetContent (n : xmlNode) : Option String :=
  some n.content

/-- The parsed document: `xmlDocGetRootElement` gives its root, NULL for an
empty document. -/
structure xmlDoc where
  root : Option xmlNode
deriving Repr

/-! ## Library collections -/

/-- Modelled from the spec: `hashtable_t` (collections/hashtable.h, created with
`hashtable_hash_str` and `hashtable_equals_str`) is not among the sources. The
spec describes each table as a mapping from identifier to value in which the
last write wins. The key is a `char *`, hence an `Option String`. The newest
entry is at the head. -/
abbrev hashtable_t (α : Type) := List (Option String × α)

/-- Modelled from the spec: `hashtable_create`, the empty mapping. -/
def hashtable_create {α : Type} : hashtable_t α := []

/-- Modelled from the spec: `put`, after which the key maps to the value (last
write wins). -/
def hashtable_t.put {α : Type} (this : hashtable_t α) (key : Option String)
    (value : α) : hashtable_t α :=
  (key, value) :: this

/-- Modelled from the spec: `get`, the value the key maps to, NULL when the key
has no entry. -/
def hashtable_t.get {α : Type} (this : hashtable_t α) (key : Option String) :
    Option α :=
  (this.find? (fun p => p.1 == key)).map (fun p => p.2)

/-! ## oval.c: the Definition Record -/

/-- The struct `criterion_t` (oval.c:54-69). -/
structure criterion_t where
  tst_ref : Option String
  ste_ref : Option String
  obj_ref : Option String
  obj_name : Option String
  op : Option String
  version : Option String
  complete : Bool
deriving DecidableEq, Repr

/-- The struct `private_oval_t` (oval.c:25-49); `criteria` is the linked list in
insertion order. -/
structure private_oval_t where
  cve : Option String
  description : Option String
  criteria : List criterion_t
  complete : Bool
deriving DecidableEq, Repr

/-- The method `add_criterion` (oval.c:71-93). -/
def add_criterion (this : private_oval_t)
    (tst ste obj obj_name op version : Option String) : private_oval_t :=
  let criterion : criterion_t :=
    { tst_ref := tst
      ste_ref := ste
      obj_ref := obj
      obj_name := obj_name
      op := op
      version := version
      complete := tst.isSome && ste.isSome && obj.isSome && obj_name.isSome &&
                  op.isSome && version.isSome && !(version == some "0:0") }
  { this with
    complete := if criterion.complete then true else this.complete
    criteria := this.criteria ++ [criterion] }

/-- The method `is_complete` (oval.c:95-99). -/
def is_complete (this : private_oval_t) : Bool :=
  this.complete

/-- The chars of a C string: the bytes of the UTF-8 encoding of the text, in
order, without the final NUL. -/
def c_chars (s : String) : List Nat :=
  s.toUTF8.data.toList.map UInt8.toNat

/-- The libc function `strlen`: the number of chars before the final NUL. -/
def strlen (s : String) : Nat :=
  (c_chars s).length

/-- One call of the debug hook: the level and the chars of the formatted
line. -/
abbrev dbg_line := Nat × List Nat

/-- The macro `DBG1` with its format already filled in. -/
def DBG1 (text : String) : dbg_line :=
  (1, c_chars text)

/-- The macro `DBG2` with its format already filled in. -/
def DBG2 (text : String) : dbg_line :=
  (2, c_chars text)

/-- The macro `DBG3` with its format already filled in. -/
def DBG3 (text : String) : dbg_line :=
  (3, c_chars text)

/-- What the conversion `%s` prints: the string, or `(null)` for a NULL
pointer. -/
def fmt_s (s : Option String) : String :=
  s.getD "(null)"

/-- The macro pair `DBG2`/`DBG3` chosen by `level == 2`, on the chars of the
formatted line. -/
def dbg_at (level : Nat) (line : List Nat) : dbg_line :=
  if level = 2 then (2, line) else (3, line)

/-- The function `print_metadata` (oval.c:101-146); `max_char` is 150. The
buffer `line` holds the first `max_char` chars of the description, which
`strncpy` copies, and the NUL set after them. -/
def print_metadata (this : private_oval_t) (level : Nat) : List dbg_line :=
  (match this.cve with
   | some cve => [dbg_at level (c_chars cve)]
   | none => []) ++
  (match this.description with
   | some description =>
     if strlen description > 150 then
       let line : List Nat := (c_chars description).take 150
       [dbg_at level (c_chars "  " ++ line ++ c_chars "...")]
     else
       [dbg_at level (c_chars ("  " ++ description))]
   | none => [])

/-- The body of the enumeration in `print` (oval.c:159-187) for one
criterion. -/
def print_criterion (criterion : criterion_t) : List dbg_line :=
  if criterion.complete then
    [ DBG2 ("  " ++ fmt_s criterion.tst_ref),
      DBG2 ("    " ++ fmt_s criterion.obj_ref),
      DBG2 ("      " ++ fmt_s criterion.obj_name),
      DBG2 ("    " ++ fmt_s criterion.ste_ref),
      DBG2 ("      " ++ fmt_s criterion.op ++ " \x27" ++ fmt_s criterion.version ++ "\x27") ]
  else
    [DBG3 ("  " ++ fmt_s criterion.tst_ref)] ++
    (if criterion.obj_ref.isSome then
       [DBG3 ("    " ++ fmt_s criterion.obj_ref)] ++
       (if criterion.obj_name.isSome then
          [DBG3 ("      " ++ fmt_s criterion.obj_name)]
        else [])
     else []) ++
    (if criterion.ste_ref.isSome then
       [DBG3 ("    " ++ fmt_s criterion.ste_ref)] ++
       (if criterion.version.isSome then
          [DBG3 ("      " ++ fmt_s criterion.op ++ " \x27" ++ fmt_s criterion.version ++ "\x27")]
        else [])
     else [])

/-- The enumeration of the criteria in `print` (oval.c:156-189). -/
def print_criteria : List criterion_t → List dbg_line
  | [] => []
  | criterion :: rest => print_criterion criterion ++ print_criteria rest

/-- The method `print` (oval.c:148-190). -/
def print (this : private_oval_t) : List dbg_line :=
  print_metadata this (if this.complete then 2 else 3) ++
  print_criteria this.criteria

/-- The constructor `oval_create` (oval.c:202-219); `INIT` zeroes the fields it
does not name, so `complete` starts FALSE. -/
def oval_create (cve description : Option String) : private_oval_t :=
  { cve := cve
    description := description
    criteria := []
    complete := false }

/-! ## oval-updater.c: the criteria tree walker -/

/-- The locals `object_ref`, `state_ref`, `object_name`, `op` and `version` of the
criterion branch of `extract_criteria` (oval-updater.c:121-122). -/
structure criterion_vars where
  object_ref : Option String
  state_ref : Option String
  object_name : Option String
  op : Option String
  version : Option String
deriving DecidableEq, Repr

/-- The loop over the children of the state (oval-updater.c:148-155), on the
locals `op` and `version`. It has no blank-node test. -/
def evr_loop : List xmlNode → Option String × Option String →
    Option String × Option String
  | [], acc => acc
  | s :: rest, acc =>
    if s.name = "evr" then
      evr_loop rest (xmlGetProp s "operation", xmlNodeGetContent s)
    else
      evr_loop rest acc

/-- The loop over the children of the test (oval-updater.c:129-158). -/
def test_loop (objects : hashtable_t String) (states : hashtable_t xmlNode) :
    List xmlNode → criterion_vars → criterion_vars
  | [], v => v
  | cur :: rest, v =>
    if xmlIsBlankNode cur then
      test_loop objects states rest v
    else if cur.name = "object" then
      let object_ref := xmlGetProp cur "object_ref"
      let object_name := objects.get object_ref
      test_loop objects states rest
        { v with object_ref := object_ref, object_name := object_name }
    else if cur.name = "state" then
      let state_ref := xmlGetProp cur "state_ref"
      match states.get state_ref with
      | some ste =>
        let r := evr_loop ste.xmlChildrenNode (v.op, v.version)
        test_loop objects states rest
          { v with state_ref := state_ref, op := r.1, version := r.2 }
      | none =>
        test_loop objects states rest { v with state_ref := state_ref }
    else
      test_loop objects states rest v

/-- The locals of the criterion branch when `add_criterion` is called
(oval-updater.c:121-159): all NULL, then filled from the test when `test_ref`
is a key of the tests table. -/
def criterion_locals (tests : hashtable_t xmlNode) (objects : hashtable_t String)
    (states : hashtable_t xmlNode) (test_ref : Option String) : criterion_vars :=
  let init : criterion_vars :=
    { object_ref := none, state_ref := none, object_name := none,
      op := none, version := none }
  match tests.get test_ref with
  | some tst => test_loop objects states tst.xmlChildrenNode init
  | none => init

/-- The criterion branch of `extract_criteria` (oval-updater.c:121-161) on a
record: the lookup and the call of `add_criterion`. -/
def criterion_branch (tests : hashtable_t xmlNode) (objects : hashtable_t String)
    (states : hashtable_t xmlNode) (oval : private_oval_t) (c : xmlNode) :
    private_oval_t :=
  let test_ref := xmlGetProp c "test_ref"
  let v := criterion_locals tests objects states test_ref
  add_criterion oval test_ref v.state_ref v.object_ref v.object_name v.op v.version

mutual
/-- The function `extract_criteria` (oval-updater.c:108-168). The record is
behind the pointer `oval`, which may be NULL; the call `oval->add_criterion` on
a NULL pointer is the fault `none`. -/
def extract_criteria (tests : hashtable_t xmlNode) (objects : hashtable_t String)
    (states : hashtable_t xmlNode) :
    Option private_oval_t → xmlNode → Option (Option private_oval_t)
  | oval, .element _ _ cs => extract_criteria_loop tests objects states oval cs
  | oval, .text _ => some oval
/-- The loop of `extract_criteria` over the children `c` of the node
(oval-updater.c:112-167). -/
def extract_criteria_loop (tests : hashtable_t xmlNode)
    (objects : hashtable_t String) (states : hashtable_t xmlNode) :
    Option private_oval_t → List xmlNode → Option (Option private_oval_t)
  | oval, [] => some oval
  | oval, c :: rest =>
    if xmlIsBlankNode c then
      extract_criteria_loop tests objects states oval rest
    else if c.name = "criterion" then
      match oval with
      | some o =>
        extract_criteria_loop tests objects states
          (some (criterion_branch tests objects states o c)) rest
      | none => none
    else if c.name = "criteria" then
      match extract_criteria tests objects states oval c with
      | some oval1 => extract_criteria_loop tests objects states oval1 rest
      | none => none
    else
      extract_criteria_loop tests objects states oval rest
end

/-! ## oval-updater.c: the driver -/

/-- The value `EXIT_SUCCESS`. -/
def EXIT_SUCCESS : Nat := 0

/-- The value `EXIT_FAILURE`. -/
def EXIT_FAILURE : Nat := 1

/-- The increment `++` of a `uint32_t` counter. -/
def uint32_inc (n : Nat) : Nat :=
  (n + 1) % 4294967296

/-- The locals `defs`, `objs`, `tsts` and `stes` (oval-updater.c:176). -/
structure sections_t where
  defs : Option xmlNode
  objs : Option xmlNode
  tsts : Option xmlNode
  stes : Option xmlNode
deriving Repr

/-- The loop over the children of the root (oval-updater.c:208-231). -/
def sections_loop : List xmlNode → sections_t → sections_t
  | [], s => s
  | cur :: rest, s =>
    if xmlIsBlankNode cur then
      sections_loop rest s
    else if cur.name = "definitions" then
      sections_loop rest { s with defs := some cur }
    else if cur.name = "objects" then
      sections_loop rest { s with objs := some cur }
    else if cur.name = "tests" then
      sections_loop rest { s with tsts := some cur }
    else if cur.name = "states" then
      sections_loop rest { s with stes := some cur }
    else
      sections_loop rest s

/-- The enumeration of the tests (oval-updater.c:258-270), on the table `tests`
and the counter `tst_count`. -/
def tests_loop : List xmlNode → hashtable_t xmlNode × Nat → hashtable_t xmlNode × Nat
  | [], acc => acc
  | tst :: rest, acc =>
    if xmlIsBlankNode tst then
      tests_loop rest acc
    else if tst.name = "dpkginfo_test" then
      tests_loop rest (acc.1.put (xmlGetProp tst "id") tst, uint32_inc acc.2)
    else
      tests_loop rest acc

/-- The loop over the children of one `dpkginfo_object` (oval-updater.c:286-299),
on the table `objects` and the counter `obj_count`. -/
def names_loop (obj : xmlNode) :
    List xmlNode → hashtable_t String × Nat → hashtable_t String × Nat
  | [], acc => acc
  | cur :: rest, acc =>
    if xmlIsBlankNode cur then
      names_loop obj rest acc
    else if cur.name = "name" then
      names_loop obj rest
        (acc.1.put (xmlGetProp obj "id") cur.content, uint32_inc acc.2)
    else
      names_loop obj rest acc

/-- The enumeration of the objects (oval-updater.c:277-301). -/
def objects_loop : List xmlNode → hashtable_t String × Nat → hashtable_t String × Nat
  | [], acc => acc
  | obj :: rest, acc =>
    if xmlIsBlankNode obj then
      objects_loop rest acc
    else if obj.name = "dpkginfo_object" then
      objects_loop rest (names_loop obj obj.xmlChildrenNode acc)
    else
      objects_loop rest acc

/-- The enumeration of the states (oval-updater.c:308-320), on the table `states`
and the counter `ste_count`. -/
def states_loop : List xmlNode → hashtable_t xmlNode × Nat → hashtable_t xmlNode × Nat
  | [], acc => acc
  | ste :: rest, acc =>
    if xmlIsBlankNode ste then
      states_loop rest acc
    else if ste.name = "dpkginfo_state" then
      states_loop rest (acc.1.put (xmlGetProp ste "id") ste, uint32_inc acc.2)
    else
      states_loop rest acc

/-- The locals `cve_ref`, `description` and `title` (oval-updater.c:179). -/
structure metadata_vars where
  cve_ref : Option String
  description : Option String
  title : Option String
deriving DecidableEq, Repr

/-- The loop over the children of a metadata element (oval-updater.c:345-364). -/
def metadata_loop : List xmlNode → metadata_vars → metadata_vars
  | [], m => m
  | c :: rest, m =>
    if xmlIsBlankNode c then
      metadata_loop rest m
    else if c.name = "reference" then
      metadata_loop rest { m with cve_ref := xmlGetProp c "ref_id" }
    else if c.name = "description" then
      metadata_loop rest { m with description := xmlNodeGetContent c }
    else if c.name = "title" then
      metadata_loop rest { m with title := xmlNodeGetContent c }
    else
      metadata_loop rest m

/-- The state of the enumeration of the definitions: the locals `oval`, `cve_ref`,
`description`, `title`, `def_count` and `complete_count` of `process_oval_file`,
the debug lines written so far, and the records handed to `print` so far. -/
structure driver_t where
  oval : Option private_oval_t
  vars : metadata_vars
  def_count : Nat
  complete_count : Nat
  log : List dbg_line
  printed : List private_oval_t
deriving Repr

/-- The metadata branch (oval-updater.c:345-373): the loop over the children of
the metadata element, the choice of the identifier and `oval_create`. -/
def metadata_branch (st : driver_t) (cur : xmlNode) : driver_t :=
  let m := metadata_loop cur.xmlChildrenNode st.vars
  if m.cve_ref.isSome || m.title.isSome then
    let m1 : metadata_vars :=
      if m.cve_ref.isSome then m else { m with cve_ref := m.title }
    { st with
      vars := m1
      def_count := uint32_inc st.def_count
      oval := some (oval_create m1.cve_ref m1.description) }
  else
    { st with vars := m, oval := some (oval_create m.cve_ref m.description) }

/-- The loop over the children of a vulnerability definition
(oval-updater.c:336-379). -/
def definition_loop (tests : hashtable_t xmlNode) (objects : hashtable_t String)
    (states : hashtable_t xmlNode) : List xmlNode → driver_t → Option driver_t
  | [], st => some st
  | cur :: rest, st =>
    if xmlIsBlankNode cur then
      definition_loop tests objects states rest st
    else if cur.name = "metadata" then
      definition_loop tests objects states rest (metadata_branch st cur)
    else if cur.name = "criteria" then
      match extract_criteria tests objects states st.oval cur with
      | some oval1 =>
        definition_loop tests objects states rest { st with oval := oval1 }
      | none => none
    else
      definition_loop tests objects states rest st

/-- The end of one iteration of the enumeration of the definitions
(oval-updater.c:381-390): count, print and destroy the record, if there is
one. -/
def finish_definition (st : driver_t) : driver_t :=
  match st.oval with
  | some oval =>
    { st with
      complete_count :=
        if is_complete oval then uint32_inc st.complete_count else st.complete_count
      log := st.log ++ print oval
      printed := st.printed ++ [oval]
      oval := none }
  | none => st

/-- The enumeration of the definitions (oval-updater.c:324-391). -/
def definitions_loop (tests : hashtable_t xmlNode) (objects : hashtable_t String)
    (states : hashtable_t xmlNode) : List xmlNode → driver_t → Option driver_t
  | [], st => some st
  | d :: rest, st =>
    if xmlIsBlankNode d then
      definitions_loop tests objects states rest st
    else if d.name = "definition" ∧ xmlGetProp d "class" = some "vulnerability" then
      match definition_loop tests objects states d.xmlChildrenNode
          { st with vars := { cve_ref := none, description := none, title := none } } with
      | some st1 => definitions_loop tests objects states rest (finish_definition st1)
      | none => none
    else
      definitions_loop tests objects states rest (finish_definition st)

/-- The three tables built by `process_oval_file`. -/
structure index_t where
  tests : hashtable_t xmlNode
  objects : hashtable_t String
  states : hashtable_t xmlNode
deriving Repr

/-- What a run of `process_oval_file` leaves: the value it returns, the debug
lines it wrote, the tables it built (`none` when it built none) and the
records it handed to `print`, in order. -/
structure run_t where
  result : Nat
  log : List dbg_line
  index : Option index_t
  printed : List private_oval_t
deriving Repr

/-- The lines written when a section is missing (oval-updater.c:235-250). -/
def missing_lines (s : sections_t) : List dbg_line :=
  (if s.defs.isNone then [DBG1 "  no definitions element found"] else []) ++
  (if s.objs.isNone then [DBG1 "  no objects element found"] else []) ++
  (if s.tsts.isNone then [DBG1 "  no tests element found"] else []) ++
  (if s.stes.isNone then [DBG1 "  no states element found"] else [])

/-- The function `process_oval_file` (oval-updater.c:173-403). The argument `doc`
is what `xmlReadFile(path, NULL, 0)` returned; `none` as a result is a fault. -/
def process_oval_file (path os uri : String) (doc : Option xmlDoc) : Option run_t :=
  match doc with
  | none =>
    some { result := EXIT_FAILURE
           log := [DBG1 ("  could not be parsed \x22" ++ path ++ "\x22")]
           index := none, printed := [] }
  | some doc =>
    match doc.root with
    | none =>
      some { result := EXIT_FAILURE, log := [DBG1 "  empty OVAL document"]
             index := none, printed := [] }
    | some root =>
      if root.name ≠ "oval_definitions" then
        some { result := EXIT_FAILURE
               log := [DBG1 "  no oval_definitions element found"]
               index := none, printed := [] }
      else
        let s := sections_loop root.xmlChildrenNode
          { defs := none, objs := none, tsts := none, stes := none }
        match s.defs, s.objs, s.tsts, s.stes with
        | some defs, some objs, some tsts, some stes =>
          let t := tests_loop tsts.xmlChildrenNode (hashtable_create, 0)
          let log1 : List dbg_line := [DBG1 (toString t.2 ++ " tests")]
          let o := objects_loop objs.xmlChildrenNode (hashtable_create, 0)
          let log2 := log1 ++ [DBG1 (toString o.2 ++ " objects")]
          let e := states_loop stes.xmlChildrenNode (hashtable_create, 0)
          let log3 := log2 ++ [DBG1 (toString e.2 ++ " states")]
          match definitions_loop t.1 o.1 e.1 defs.xmlChildrenNode
              { oval := none
                vars := { cve_ref := none, description := none, title := none }
                def_count := 0, complete_count := 0, log := log3, printed := [] } with
          | some st =>
            some { result := EXIT_SUCCESS
                   log := st.log ++
                     [DBG1 (toString st.complete_count ++ " of " ++
                          toString st.def_count ++ " definitions are complete")]
                   index := some { tests := t.1, objects := o.1, states := e.1 }
                   printed := st.printed }
          | none => none
        | _, _, _, _ =>
          some { result := EXIT_FAILURE, log := missing_lines s
                 index := none, printed := [] }

/-! ## Specification-side definitions

The notions the properties below are stated with: sequences of calls, the last
child with a tag, the criterion leaves of a criteria tree, the flattened tree,
and the documents the scenarios are run on. -/

/-- The six arguments of one call of `add_criterion`. -/
structure criterion_args where
  tst : Option String
  ste : Option String
  obj : Option String
  obj_name : Option String
  op : Option String
  version : Option String
deriving Repr

/-- A finite sequence of `add_criterion` calls on a record, first call first. -/
def add_criteria : List criterion_args → private_oval_t → private_oval_t
  | [], this => this
  | a :: rest, this =>
    add_criteria rest (add_criterion this a.tst a.ste a.obj a.obj_name a.op a.version)

/-- The complete flag of the Criterion stored last in the record. -/
def stored_complete (this : private_oval_t) : Option Bool :=
  this.criteria.getLast?.map (fun c => c.complete)

/-- The last child that carries the given tag, if there is one. -/
def last_child (tag : String) (cs : List xmlNode) : Option xmlNode :=
  (cs.filter (fun c => c.name == tag)).getLast?

/-- The children that carry the given tag, in document order. -/
def children_named (tag : String) (cs : List xmlNode) : List xmlNode :=
  cs.filter (fun c => c.name == tag)

/-- The `id` attributes that the children with the given tag carry, in document
order. -/
def section_ids (tag : String) (cs : List xmlNode) : List String :=
  (children_named tag cs).filterMap (fun c => xmlGetProp c "id")

/-- The children with the given tag whose `id` attribute is the key, in document
order. -/
def children_with_id (tag : String) (key : Option String) (cs : List xmlNode) :
    List xmlNode :=
  cs.filter (fun c => c.name == tag && xmlGetProp c "id" == key)

/-- The text of the last name child of a node, if it has a name child. -/
def last_name (obj : xmlNode) : Option String :=
  (last_child "name" obj.xmlChildrenNode).map (fun c => c.content)

/-- What one child of the objects section contributes under a key: the text of
its last name child, when it is a `dpkginfo_object` with that `id`. -/
def object_entry (key : Option String) (obj : xmlNode) : Option String :=
  if obj.name = "dpkginfo_object" ∧ xmlGetProp obj "id" = key then last_name obj else none

/-- The effect of one state child of a test on the locals `op` and `version`: a
state found in the states table overwrites them from its last `evr` child, if it
has one. -/
def state_step (states : hashtable_t xmlNode) (acc : Option String × Option String)
    (sc : xmlNode) : Option String × Option String :=
  match states.get (xmlGetProp sc "state_ref") with
  | some ste => evr_loop ste.xmlChildrenNode acc
  | none => acc

/-- The Criterion Resolver of the spec: the Criterion of a criterion leaf, its
fields as the criterion branch finds them and its complete flag by the
completeness rule (all six fields present and version not `0:0`). -/
def resolve (tests : hashtable_t xmlNode) (objects : hashtable_t String)
    (states : hashtable_t xmlNode) (c : xmlNode) : criterion_t :=
  let test_ref := xmlGetProp c "test_ref"
  let v := criterion_locals tests objects states test_ref
  { tst_ref := test_ref
    ste_ref := v.state_ref
    obj_ref := v.object_ref
    obj_name := v.object_name
    op := v.op
    version := v.version
    complete := decide (test_ref ≠ none ∧ v.state_ref ≠ none ∧ v.object_ref ≠ none ∧
      v.object_name ≠ none ∧ v.op ≠ none ∧ v.version ≠ none ∧ v.version ≠ some "0:0") }

/-- A record after a sequence of Criteria is appended to it: the list grows at
its end and the record is complete when it was or when one of them is. -/
def append_criteria (oval : private_oval_t) (cs : List criterion_t) : private_oval_t :=
  { oval with
    criteria := oval.criteria ++ cs
    complete := oval.complete || cs.any (fun c => c.complete) }

mutual
/-- The criterion leaves of a criteria tree in document (pre-order) order: the
children named `criterion`, and the leaves of the children named `criteria` in
their place. -/
def criterion_leaves : xmlNode → List xmlNode
  | .element _ _ cs => criterion_leaves_list cs
  | .text _ => []
/-- The criterion leaves below a chain of siblings. -/
def criterion_leaves_list : List xmlNode → List xmlNode
  | [] => []
  | c :: rest =>
    (if c.name = "criterion" then [c]
     else if c.name = "criteria" then criterion_leaves c
     else []) ++ criterion_leaves_list rest
end

mutual
/-- The children of a node after every nested criteria group, to any depth, is
replaced by its children in place. -/
def flat_children : xmlNode → List xmlNode
  | .element _ _ cs => flat_list cs
  | .text _ => []
/-- A chain of siblings with every criteria group replaced by its children. -/
def flat_list : List xmlNode → List xmlNode
  | [] => []
  | c :: rest =>
    (if c.name = "criteria" then flat_children c else [c]) ++ flat_list rest
end

/-- The fully flattened tree: the same node with no criteria group left among
its children. -/
def flatten : xmlNode → xmlNode
  | .element n ps cs => .element n ps (flat_list cs)
  | .text s => .text s

/-- Whether the root has a direct child with the given tag. -/
def section_present (root : xmlNode) (tag : String) : Bool :=
  root.xmlChildrenNode.any (fun c => c.name == tag)

/-- The `dpkginfo_test` of the scenario: `tst1`, which refers to the object
`obj1` and to the state `ste1`. -/
def scenario_test : xmlNode :=
  .element "dpkginfo_test" [("id", "tst1")]
    [ .text "\n      ",
      .element "object" [("object_ref", "obj1")] [],
      .element "state" [("state_ref", "ste1")] [] ]

/-- The `dpkginfo_object` of the scenario: `obj1`, with one name child for each
of the given texts. -/
def scenario_object (names : List String) : xmlNode :=
  .element "dpkginfo_object" [("id", "obj1")]
    (names.map (fun n => .element "name" [] [.text n]))

/-- The `dpkginfo_state` of the scenario: `ste1`, with one `evr` child of
operation `less than` and the given text. -/
def scenario_state (v : String) : xmlNode :=
  .element "dpkginfo_state" [("id", "ste1")]
    [.element "evr" [("operation", "less than")] [.text v]]

/-- The criteria of the scenario: a single criterion leaf that refers to
`tst1`. -/
def scenario_criteria : xmlNode :=
  .element "criteria" [("operator", "OR")]
    [.element "criterion" [("test_ref", "tst1")] []]

/-- The metadata of the scenario: the reference `CVE-2020-0001`. -/
def scenario_metadata : xmlNode :=
  .element "metadata" []
    [.element "reference" [("ref_id", "CVE-2020-0001"), ("source", "CVE")] []]

/-- A document with the four sections, the test, object and state of the
scenario, and one vulnerability definition with the given children. -/
def scenario_document (names : List String) (v : String)
    (definition_children : List xmlNode) : xmlDoc :=
  { root := some (.element "oval_definitions" []
      [ .text "\n  ",
        .element "definitions" []
          [.element "definition" [("class", "vulnerability"), ("id", "def1")]
            definition_children],
        .element "tests" [] [scenario_test],
        .element "objects" [] [scenario_object names],
        .element "states" [] [scenario_state v] ]) }

mutual
/-- The walker `extract_criteria` run with a bound on the depth of its calls:
the same steps, and `none` when a call would exceed the bound. Within the
bound the result is `some` of what the walker returns. -/
def extract_criteria_bounded (tests : hashtable_t xmlNode)
    (objects : hashtable_t String) (states : hashtable_t xmlNode) :
    Nat → Option private_oval_t → xmlNode → Option (Option (Option private_oval_t))
  | 0, _, _ => none
  | _ + 1, oval, .text _ => some (some oval)
  | depth + 1, oval, .element _ _ cs =>
    extract_criteria_bounded_loop tests objects states depth oval cs
/-- The loop of the walker under a bound on the depth of the calls it makes. -/
def extract_criteria_bounded_loop (tests : hashtable_t xmlNode)
    (objects : hashtable_t String) (states : hashtable_t xmlNode) :
    Nat → Option private_oval_t → List xmlNode → Option (Option (Option private_oval_t))
  | _, oval, [] => some (some oval)
  | depth, oval, c :: rest =>
    if xmlIsBlankNode c then
      extract_criteria_bounded_loop tests objects states depth oval rest
    else if c.name = "criterion" then
      match oval with
      | some o =>
        extract_criteria_bounded_loop tests objects states depth
          (some (criterion_branch tests objects states o c)) rest
      | none => some none
    else if c.name = "criteria" then
      match extract_criteria_bounded tests objects states depth oval c with
      | some (some oval1) =>
        extract_criteria_bounded_loop tests objects states depth oval1 rest
      | some none => some none
      | none => none
    else
      extract_criteria_bounded_loop tests objects states depth oval rest
end

mutual
/-- The depth of the criteria subtree of a node: one for the node, and one more
for every level of criteria groups nested among its children. -/
def criteria_depth : xmlNode → Nat
  | .element _ _ cs => 1 + criteria_depth_list cs
  | .text _ => 1
/-- The deepest criteria subtree among a chain of siblings, zero when none of
them is a criteria group. -/
def criteria_depth_list : List xmlNode → Nat
  | [] => 0
  | c :: rest =>
    max (if c.name = "criteria" then criteria_depth c else 0) (criteria_depth_list rest)
end

mutual
/-- The depth of the tree below a node, the node included. -/
def tree_depth : xmlNode → Nat
  | .element _ _ cs => 1 + tree_depth_list cs
  | .text _ => 1
/-- The deepest tree among a chain of siblings. -/
def tree_depth_list : List xmlNode → Nat
  | [] => 0
  | c :: rest => max (tree_depth c) (tree_depth_list rest)
end

/-! ### More documents -/

/-- Whether a child of the definitions section is a definition of class
`vulnerability`. -/
def is_vulnerability (d : xmlNode) : Bool :=
  d.name == "definition" && xmlGetProp d "class" == some "vulnerability"

/-- A document with the four sections, the test, object and state of the
scenario, and the given children of the definitions section. -/
def definitions_document (definitions : List xmlNode) : xmlDoc :=
  { root := some (.element "oval_definitions" []
      [ .element "definitions" [] definitions,
        .element "tests" [] [scenario_test],
        .element "objects" [] [scenario_object ["openssl"]],
        .element "states" [] [scenario_state "1.0.0"] ]) }

/-- A `dpkginfo_test` with two state children: the first refers to `ste1`, the
second to `ste_missing`. -/
def two_state_test : xmlNode :=
  .element "dpkginfo_test" [("id", "tst1")]
    [ .element "object" [("object_ref", "obj1")] [],
      .element "state" [("state_ref", "ste1")] [],
      .element "state" [("state_ref", "ste_missing")] [] ]

/-- A `dpkginfo_test` with two object children: the first refers to `obj1`, the
second to `obj_missing`. -/
def two_object_test : xmlNode :=
  .element "dpkginfo_test" [("id", "tst1")]
    [ .element "object" [("object_ref", "obj1")] [],
      .element "object" [("object_ref", "obj_missing")] [],
      .element "state" [("state_ref", "ste1")] [] ]

/-- The `dpkginfo_test` number `i` of a long tests section; its `id` is a run of
`i` letters. -/
def numbered_test (i : Nat) : xmlNode :=
  .element "dpkginfo_test" [("id", String.mk (List.replicate i 'a'))] []

/-- A tests section with `n` children `dpkginfo_test`, their ids all
different. -/
def numbered_tests (n : Nat) : List xmlNode :=
  (List.range n).map numbered_test

/-- A criteria tree with one nested criteria group and, beside it, a deeper
subtree that is not a criteria group. -/
def nested_criteria : xmlNode :=
  .element "criteria" [("operator", "AND")]
    [ .element "criteria" [("operator", "OR")]
        [.element "criterion" [("test_ref", "tst1")] []],
      .element "extend_definition" []
        [.element "criteria" [] [.element "criteria" [] [.text "x"]]] ]

/-- A criteria tree with two criterion leaves: the first carries `test_ref`
equal to `tst1`, the second carries no `test_ref` attribute. -/
def mixed_criteria : xmlNode :=
  .element "criteria" [("operator", "OR")]
    [ .element "criterion" [("test_ref", "tst1")] [],
      .element "criterion" [("comment", "openssl is installed")] [] ]

/-! ## The criteria tree walker (oval-updater.c) -/

/-- A blank node is a text node, so its name is `text`. -/
theorem name_of_blank (c : xmlNode) (h : xmlIsBlankNode c = true) : c.name = "text" := by
  cases c with
  | element n ps cs => simp [xmlIsBlankNode] at h
  | text s => rfl

/-- Appending no Criterion leaves the record as it is. -/
theorem append_criteria_nil (oval : private_oval_t) : append_criteria oval [] = oval := by
  simp [append_criteria]

/-- Appending two sequences one after the other appends their concatenation. -/
theorem append_criteria_append (oval : private_oval_t) (a b : List criterion_t) :
    append_criteria (append_criteria oval a) b = append_criteria oval (a ++ b) := by
  simp [append_criteria, Bool.or_assoc]

/-- The criterion branch appends the resolved Criterion of the leaf. -/
theorem criterion_branch_eq (tests : hashtable_t xmlNode) (objects : hashtable_t String)
    (states : hashtable_t xmlNode) (oval : private_oval_t) (c : xmlNode) :
    criterion_branch tests objects states oval c =
      append_criteria oval [resolve tests objects states c] := by
  simp only [criterion_branch, add_criterion, append_criteria, resolve]
  cases xmlGetProp c "test_ref" <;>
    cases (criterion_locals tests objects states _).state_ref <;>
    cases (criterion_locals tests objects states _).object_ref <;>
    cases (criterion_locals tests objects states _).object_name <;>
    cases (criterion_locals tests objects states _).op <;>
    cases (criterion_locals tests objects states _).version <;>
    cases oval.complete <;> simp [beq_eq_decide]

/-- The leaves below a concatenation of sibling chains. -/
theorem criterion_leaves_list_append (a b : List xmlNode) :
    criterion_leaves_list (a ++ b) = criterion_leaves_list a ++ criterion_leaves_list b := by
  induction a with
  | nil => simp [criterion_leaves_list]
  | cons c rest ih => simp [criterion_leaves_list, ih]

mutual
/-- On a record, `extract_criteria` returns and appends the resolved leaves of
the node in document order. -/
theorem extract_criteria_some (tests : hashtable_t xmlNode)
    (objects : hashtable_t String) (states : hashtable_t xmlNode) :
    ∀ (node : xmlNode) (oval : private_oval_t),
      extract_criteria tests objects states (some oval) node =
        some (some (append_criteria oval
          ((criterion_leaves node).map (resolve tests objects states))))
  | .element _ _ cs, oval => by
    simp only [extract_criteria, criterion_leaves]
    exact extract_criteria_loop_some tests objects states cs oval
  | .text _, oval => by
    simp [extract_criteria, criterion_leaves, append_criteria_nil]
/-- On a record, the loop of `extract_criteria` returns and appends the
resolved leaves below the children in document order. -/
theorem extract_criteria_loop_some (tests : hashtable_t xmlNode)
    (objects : hashtable_t String) (states : hashtable_t xmlNode) :
    ∀ (cs : List xmlNode) (oval : private_oval_t),
      extract_criteria_loop tests objects states (some oval) cs =
        some (some (append_criteria oval
          ((criterion_leaves_list cs).map (resolve tests objects states))))
  | [], oval => by
    simp [extract_criteria_loop, criterion_leaves_list, append_criteria_nil]
  | c :: rest, oval => by
    unfold extract_criteria_loop
    by_cases hb : xmlIsBlankNode c = true
    · have hn := name_of_blank c hb
      rw [if_pos hb, extract_criteria_loop_some tests objects states rest oval]
      simp [criterion_leaves_list, hn]
    · rw [if_neg hb]
      by_cases h1 : c.name = "criterion"
      · rw [if_pos h1]
        simp only []
        rw [extract_criteria_loop_some tests objects states rest _,
          criterion_branch_eq, append_criteria_append]
        simp [criterion_leaves_list, h1]
      · rw [if_neg h1]
        by_cases h2 : c.name = "criteria"
        · rw [if_pos h2, extract_criteria_some tests objects states c oval]
          simp only []
          rw [extract_criteria_loop_some tests objects states rest _,
            append_criteria_append]
          simp [criterion_leaves_list, h1, h2]
        · rw [if_neg h2, extract_criteria_loop_some tests objects states rest oval]
          simp [criterion_leaves_list, h1, h2]
end

mutual
/-- On a NULL record pointer, `extract_criteria` returns exactly when the node
has no criterion leaf. -/
theorem extract_criteria_none (tests : hashtable_t xmlNode)
    (objects : hashtable_t String) (states : hashtable_t xmlNode) :
    ∀ (node : xmlNode),
      (criterion_leaves node = [] →
        extract_criteria tests objects states none node = some none) ∧
      (criterion_leaves node ≠ [] →
        extract_criteria tests objects states none node = none)
  | .element _ _ cs => by
    simp only [extract_criteria, criterion_leaves]
    exact extract_criteria_loop_none tests objects states cs
  | .text _ => by
    simp [extract_criteria, criterion_leaves]
/-- On a NULL record pointer, the loop of `extract_criteria` returns exactly
when there is no criterion leaf below the children. -/
theorem extract_criteria_loop_none (tests : hashtable_t xmlNode)
    (objects : hashtable_t String) (states : hashtable_t xmlNode) :
    ∀ (cs : List xmlNode),
      (criterion_leaves_list cs = [] →
        extract_criteria_loop tests objects states none cs = some none) ∧
      (criterion_leaves_list cs ≠ [] →
        extract_criteria_loop tests objects states none cs = none)
  | [] => by
    simp [extract_criteria_loop, criterion_leaves_list]
  | c :: rest => by
    have ih := extract_criteria_loop_none tests objects states rest
    unfold extract_criteria_loop
    by_cases hb : xmlIsBlankNode c = true
    · have hn := name_of_blank c hb
      rw [if_pos hb]
      simpa [criterion_leaves_list, hn] using ih
    · rw [if_neg hb]
      by_cases h1 : c.name = "criterion"
      · rw [if_pos h1]
        simp [criterion_leaves_list, h1]
      · rw [if_neg h1]
        by_cases h2 : c.name = "criteria"
        · have ihc := extract_criteria_none tests objects states c
          rw [if_pos h2]
          by_cases h3 : criterion_leaves c = []
          · rw [ihc.1 h3]
            simpa [criterion_leaves_list, h1, h2, h3] using ih
          · rw [ihc.2 h3]
            simp [criterion_leaves_list, h1, h2, h3]
        · rw [if_neg h2]
          simpa [criterion_leaves_list, h1, h2] using ih
end

mutual
/-- Flattening keeps the criterion leaves of a node and their order. -/
theorem criterion_leaves_flat_children :
    ∀ (node : xmlNode), criterion_leaves_list (flat_children node) = criterion_leaves node
  | .element _ _ cs => by
    simp only [flat_children, criterion_leaves]
    exact criterion_leaves_flat_list cs
  | .text _ => by
    simp [flat_children, criterion_leaves, criterion_leaves_list]
/-- Flattening keeps the criterion leaves below a chain of siblings. -/
theorem criterion_leaves_flat_list :
    ∀ (cs : List xmlNode), criterion_leaves_list (flat_list cs) = criterion_leaves_list cs
  | [] => by simp [flat_list]
  | c :: rest => by
    unfold flat_list
    rw [criterion_leaves_list_append, criterion_leaves_flat_list rest]
    by_cases h2 : c.name = "criteria"
    · have h1 : c.name ≠ "criterion" := by rw [h2]; decide
      rw [if_pos h2, criterion_leaves_flat_children c]
      simp [criterion_leaves_list, h1, h2]
    · rw [if_neg h2]
      simp [criterion_leaves_list, h2]
end

mutual
/-- No criteria group is left among the flattened children of a node. -/
theorem flat_children_no_group :
    ∀ (node : xmlNode), ∀ c ∈ flat_children node, c.name ≠ "criteria"
  | .element _ _ cs => by
    simp only [flat_children]
    exact flat_list_no_group cs
  | .text _ => by
    simp [flat_children]
/-- No criteria group is left in a flattened chain of siblings. -/
theorem flat_list_no_group :
    ∀ (cs : List xmlNode), ∀ c ∈ flat_list cs, c.name ≠ "criteria"
  | [] => by simp [flat_list]
  | d :: rest => by
    intro c hc
    unfold flat_list at hc
    rcases List.mem_append.mp hc with h | h
    · by_cases h2 : d.name = "criteria"
      · rw [if_pos h2] at h
        exact flat_children_no_group d c h
      · rw [if_neg h2] at h
        rw [List.mem_singleton.mp h]
        exact h2
    · exact flat_list_no_group rest c h
end

/-- In a chain of siblings without criteria group, the criterion leaves are the
children named `criterion`. -/
theorem criterion_leaves_list_flat (cs : List xmlNode)
    (h : ∀ c ∈ cs, c.name ≠ "criteria") :
    criterion_leaves_list cs = children_named "criterion" cs := by
  induction cs with
  | nil => simp [criterion_leaves_list, children_named]
  | cons c rest ih =>
    have h2 : c.name ≠ "criteria" := h c (List.mem_cons_self _ _)
    have ih1 := ih (fun d hd => h d (List.mem_cons_of_mem _ hd))
    simp only [children_named] at ih1
    by_cases h1 : c.name = "criterion"
    · simp [criterion_leaves_list, children_named, h1, ih1]
    · simp [criterion_leaves_list, children_named, h1, h2, ih1]
/-! ## The Definition Record (oval.c) -/

/-- C1: for every call of `add_criterion`, with each argument present or
absent, the Criterion is stored last with the six arguments as its fields, and
its complete flag is true if and only if all six arguments are present and
version is not the string `0:0`; starting from a complete Criterion, making
any single field absent or setting version to `0:0` makes complete false. -/
theorem add_criterion_complete_iff (this : private_oval_t)
    (tst ste obj obj_name op version : Option String) :
    (∃ c : criterion_t,
      (add_criterion this tst ste obj obj_name op version).criteria =
        this.criteria ++ [c] ∧
      c.tst_ref = tst ∧ c.ste_ref = ste ∧ c.obj_ref = obj ∧ c.obj_name = obj_name ∧
      c.op = op ∧ c.version = version ∧
      (c.complete = true ↔
        (tst ≠ none ∧ ste ≠ none ∧ obj ≠ none ∧ obj_name ≠ none ∧ op ≠ none ∧
          version ≠ none ∧ version ≠ some "0:0"))) ∧
    (∀ t s o n p v : String,
      (stored_complete (add_criterion this (some t) (some s) (some o) (some n)
          (some p) (some v)) = some true ↔ v ≠ "0:0") ∧
      stored_complete (add_criterion this none (some s) (some o) (some n)
          (some p) (some v)) = some false ∧
      stored_complete (add_criterion this (some t) none (some o) (some n)
          (some p) (some v)) = some false ∧
      stored_complete (add_criterion this (some t) (some s) none (some n)
          (some p) (some v)) = some false ∧
      stored_complete (add_criterion this (some t) (some s) (some o) none
          (some p) (some v)) = some false ∧
      stored_complete (add_criterion this (some t) (some s) (some o) (some n)
          none (some v)) = some false ∧
      stored_complete (add_criterion this (some t) (some s) (some o) (some n)
          (some p) none) = some false ∧
      stored_complete (add_criterion this (some t) (some s) (some o) (some n)
          (some p) (some "0:0")) = some false) := by
  refine ⟨⟨_, rfl, rfl, rfl, rfl, rfl, rfl, rfl, ?_⟩, ?_⟩
  · cases tst <;> cases ste <;> cases obj <;> cases obj_name <;> cases op <;>
      cases version <;> simp
  · intro t s o n p v
    simp [stored_complete, add_criterion]

/-- One call of `add_criterion` keeps the record complete exactly when one of
its Criteria is. -/
theorem add_criterion_invariant (this : private_oval_t)
    (tst ste obj obj_name op version : Option String)
    (h : this.complete = true ↔ ∃ c ∈ this.criteria, c.complete = true) :
    (add_criterion this tst ste obj obj_name op version).complete = true ↔
      ∃ c ∈ (add_criterion this tst ste obj obj_name op version).criteria,
        c.complete = true := by
  simp only [add_criterion, List.mem_append, List.mem_singleton]
  constructor
  · intro hc
    split at hc
    · rename_i h1
      exact ⟨_, Or.inr rfl, h1⟩
    · obtain ⟨c, hc1, hc2⟩ := h.mp hc
      exact ⟨c, Or.inl hc1, hc2⟩
  · rintro ⟨c, hc1 | hc1, hc2⟩
    · have h2 := h.mpr ⟨c, hc1, hc2⟩
      split
      · rfl
      · exact h2
    · subst hc1
      split
      · rfl
      · rename_i h1
        exact absurd hc2 h1

/-- A sequence of `add_criterion` calls keeps the record complete exactly when
one of its Criteria is. -/
theorem add_criteria_invariant (calls : List criterion_args) (this : private_oval_t)
    (h : this.complete = true ↔ ∃ c ∈ this.criteria, c.complete = true) :
    (add_criteria calls this).complete = true ↔
      ∃ c ∈ (add_criteria calls this).criteria, c.complete = true := by
  induction calls generalizing this with
  | nil => exact h
  | cons a rest ih => exact ih _ (add_criterion_invariant this _ _ _ _ _ _ h)

/-- C2: for every record obtained from `oval_create` followed by any finite
sequence of `add_criterion` calls, `is_complete` returns true if and only if
at least one Criterion in the list has complete set; a freshly created record
has no criteria and is incomplete. -/
theorem is_complete_iff_exists (cve description : Option String)
    (calls : List criterion_args) :
    (is_complete (add_criteria calls (oval_create cve description)) = true ↔
      ∃ c ∈ (add_criteria calls (oval_create cve description)).criteria,
        c.complete = true) ∧
    (oval_create cve description).criteria = [] ∧
    is_complete (oval_create cve description) = false := by
  refine ⟨?_, rfl, rfl⟩
  exact add_criteria_invariant calls _ (by simp [oval_create])
/-! ## The index build and the lookups -/

/-- The last child with a tag in a chain that starts with `c`. -/
theorem last_child_cons (tag : String) (c : xmlNode) (rest : List xmlNode) :
    last_child tag (c :: rest) =
      (last_child tag rest).or (if c.name = tag then some c else none) := by
  unfold last_child
  by_cases h : c.name = tag
  · have hb : (c.name == tag) = true := by simpa using h
    rw [List.filter_cons, if_pos hb, if_pos h, List.getLast?_cons]
    cases (List.filter (fun c => c.name == tag) rest).getLast? <;> rfl
  · have hb : ¬ (c.name == tag) = true := by simpa using h
    rw [List.filter_cons, if_neg hb, if_neg h]
    cases (List.filter (fun c => c.name == tag) rest).getLast? <;> rfl

/-- The last child with a tag in the empty chain. -/
theorem last_child_nil (tag : String) : last_child tag [] = none := rfl

/-- A key just put is found, any other key is looked up in the older table. -/
theorem get_put {α : Type} (t : hashtable_t α) (k k1 : Option String) (v : α) :
    (t.put k v).get k1 = if k = k1 then some v else t.get k1 := by
  unfold hashtable_t.put hashtable_t.get
  rw [List.find?_cons]
  by_cases h : k = k1
  · have hb : (k == k1) = true := by simpa using h
    simp [hb, h]
  · have hb : (k == k1) = false := by simpa using h
    simp [hb, h]

/-- The loop over the children of a state keeps the last `evr` child. -/
theorem evr_loop_eq (cs : List xmlNode) (acc : Option String × Option String) :
    evr_loop cs acc =
      ((last_child "evr" cs).map
        (fun e => (xmlGetProp e "operation", some e.content))).getD acc := by
  induction cs generalizing acc with
  | nil => rfl
  | cons c rest ih =>
    unfold evr_loop
    rw [last_child_cons]
    by_cases h : c.name = "evr"
    · rw [if_pos h, if_pos h, ih]
      cases last_child "evr" rest <;> rfl
    · rw [if_neg h, if_neg h, ih]
      cases last_child "evr" rest <;> rfl

/-- The children with a tag in a chain that starts with `c`. -/
theorem children_named_cons (tag : String) (c : xmlNode) (rest : List xmlNode) :
    children_named tag (c :: rest) =
      if c.name = tag then c :: children_named tag rest else children_named tag rest := by
  unfold children_named
  by_cases h : c.name = tag
  · have hb : (c.name == tag) = true := by simpa using h
    rw [List.filter_cons, if_pos hb, if_pos h]
  · have hb : ¬ (c.name == tag) = true := by simpa using h
    rw [List.filter_cons, if_neg hb, if_neg h]

/-- The loop over the children of a test: `object_ref` and `object_name` come
from the last object child, `state_ref` from the last state child, and `op` and
`version` from the state children in turn. -/
theorem test_loop_eq (objects : hashtable_t String) (states : hashtable_t xmlNode)
    (cs : List xmlNode) (v : criterion_vars) :
    test_loop objects states cs v =
      { object_ref := ((last_child "object" cs).map
          (fun oc => xmlGetProp oc "object_ref")).getD v.object_ref
        object_name := ((last_child "object" cs).map
          (fun oc => objects.get (xmlGetProp oc "object_ref"))).getD v.object_name
        state_ref := ((last_child "state" cs).map
          (fun sc => xmlGetProp sc "state_ref")).getD v.state_ref
        op := ((children_named "state" cs).foldl (state_step states) (v.op, v.version)).1
        version :=
          ((children_named "state" cs).foldl (state_step states) (v.op, v.version)).2 } := by
  induction cs generalizing v with
  | nil => rfl
  | cons c rest ih =>
    unfold test_loop
    rw [last_child_cons, last_child_cons, children_named_cons]
    by_cases hb : xmlIsBlankNode c = true
    · have hn := name_of_blank c hb
      have h1 : c.name ≠ "object" := by rw [hn]; decide
      have h2 : c.name ≠ "state" := by rw [hn]; decide
      rw [if_pos hb, ih, if_neg h1, if_neg h2, if_neg h2]
      cases last_child "object" rest <;> cases last_child "state" rest <;> rfl
    · rw [if_neg hb]
      by_cases h1 : c.name = "object"
      · have h2 : c.name ≠ "state" := by rw [h1]; decide
        rw [if_pos h1, if_pos h1, if_neg h2, if_neg h2]
        simp only []
        rw [ih]
        cases last_child "object" rest <;> cases last_child "state" rest <;> rfl
      · rw [if_neg h1, if_neg h1]
        by_cases h2 : c.name = "state"
        · rw [if_pos h2, if_pos h2, if_pos h2, List.foldl_cons]
          simp only [state_step]
          cases hg : states.get (xmlGetProp c "state_ref") with
          | none =>
            simp only []
            rw [ih]
            cases last_child "object" rest <;> cases last_child "state" rest <;> rfl
          | some ste =>
            simp only []
            rw [ih]
            cases last_child "object" rest <;> cases last_child "state" rest <;> rfl
        · rw [if_neg h2, if_neg h2, if_neg h2, ih]
          cases last_child "object" rest <;> cases last_child "state" rest <;> rfl

/-- The children with a tag and an id in a chain that starts with `c`. -/
theorem children_with_id_cons (tag : String) (key : Option String) (c : xmlNode)
    (rest : List xmlNode) :
    children_with_id tag key (c :: rest) =
      if c.name = tag ∧ xmlGetProp c "id" = key then c :: children_with_id tag key rest
      else children_with_id tag key rest := by
  unfold children_with_id
  by_cases h : c.name = tag ∧ xmlGetProp c "id" = key
  · have hb : (c.name == tag && xmlGetProp c "id" == key) = true := by simpa using h
    rw [List.filter_cons, if_pos hb, if_pos h]
  · have hb : ¬ (c.name == tag && xmlGetProp c "id" == key) = true := by simpa using h
    rw [List.filter_cons, if_neg hb, if_neg h]

/-- After the enumeration of the tests, a key maps to the last `dpkginfo_test`
child that carries it as `id`, and to what it mapped to before when there is no
such child. -/
theorem tests_loop_get (cs : List xmlNode) (acc : hashtable_t xmlNode × Nat)
    (key : Option String) :
    (tests_loop cs acc).1.get key =
      ((children_with_id "dpkginfo_test" key cs).getLast?).or (acc.1.get key) := by
  induction cs generalizing acc with
  | nil => simp [tests_loop, children_with_id]
  | cons c rest ih =>
    unfold tests_loop
    rw [children_with_id_cons]
    by_cases hb : xmlIsBlankNode c = true
    · have hn := name_of_blank c hb
      have h1 : ¬ (c.name = "dpkginfo_test" ∧ xmlGetProp c "id" = key) := by
        rw [hn]; simp
      rw [if_pos hb, ih, if_neg h1]
    · rw [if_neg hb]
      by_cases h1 : c.name = "dpkginfo_test"
      · rw [if_pos h1, ih, get_put]
        by_cases h2 : xmlGetProp c "id" = key
        · rw [if_pos h2, if_pos ⟨h1, h2⟩, List.getLast?_cons]
          cases (children_with_id "dpkginfo_test" key rest).getLast? <;> rfl
        · have h3 : ¬ (c.name = "dpkginfo_test" ∧ xmlGetProp c "id" = key) :=
            fun h => h2 h.2
          rw [if_neg h2, if_neg h3]
      · have h3 : ¬ (c.name = "dpkginfo_test" ∧ xmlGetProp c "id" = key) :=
          fun h => h1 h.1
        rw [if_neg h1, ih, if_neg h3]

/-- After the enumeration of the states, a key maps to the last `dpkginfo_state`
child that carries it as `id`, and to what it mapped to before when there is no
such child. -/
theorem states_loop_get (cs : List xmlNode) (acc : hashtable_t xmlNode × Nat)
    (key : Option String) :
    (states_loop cs acc).1.get key =
      ((children_with_id "dpkginfo_state" key cs).getLast?).or (acc.1.get key) := by
  induction cs generalizing acc with
  | nil => simp [states_loop, children_with_id]
  | cons c rest ih =>
    unfold states_loop
    rw [children_with_id_cons]
    by_cases hb : xmlIsBlankNode c = true
    · have hn := name_of_blank c hb
      have h1 : ¬ (c.name = "dpkginfo_state" ∧ xmlGetProp c "id" = key) := by
        rw [hn]; simp
      rw [if_pos hb, ih, if_neg h1]
    · rw [if_neg hb]
      by_cases h1 : c.name = "dpkginfo_state"
      · rw [if_pos h1, ih, get_put]
        by_cases h2 : xmlGetProp c "id" = key
        · rw [if_pos h2, if_pos ⟨h1, h2⟩, List.getLast?_cons]
          cases (children_with_id "dpkginfo_state" key rest).getLast? <;> rfl
        · have h3 : ¬ (c.name = "dpkginfo_state" ∧ xmlGetProp c "id" = key) :=
            fun h => h2 h.2
          rw [if_neg h2, if_neg h3]
      · have h3 : ¬ (c.name = "dpkginfo_state" ∧ xmlGetProp c "id" = key) :=
          fun h => h1 h.1
        rw [if_neg h1, ih, if_neg h3]

/-- After the loop over the children of one object, the key that is the `id` of
the object maps to the text of its last name child, if it has one; any other
key maps to what it mapped to before. -/
theorem names_loop_get (obj : xmlNode) (cs : List xmlNode)
    (acc : hashtable_t String × Nat) (key : Option String) :
    (names_loop obj cs acc).1.get key =
      if xmlGetProp obj "id" = key then
        ((last_child "name" cs).map (fun c => c.content)).or (acc.1.get key)
      else acc.1.get key := by
  induction cs generalizing acc with
  | nil =>
    simp [names_loop, last_child_nil]
  | cons c rest ih =>
    unfold names_loop
    rw [last_child_cons]
    by_cases hb : xmlIsBlankNode c = true
    · have hn := name_of_blank c hb
      have h1 : c.name ≠ "name" := by rw [hn]; decide
      rw [if_pos hb, ih, if_neg h1]
      cases last_child "name" rest <;> rfl
    · rw [if_neg hb]
      by_cases h1 : c.name = "name"
      · rw [if_pos h1, ih, get_put, if_pos h1]
        by_cases h2 : xmlGetProp obj "id" = key
        · simp only [if_pos h2]
          cases last_child "name" rest <;> rfl
        · simp only [if_neg h2]
      · rw [if_neg h1, ih, if_neg h1]
        cases last_child "name" rest <;> rfl

/-- After the enumeration of the objects, a key maps to the text of the last
name child of the last `dpkginfo_object` child that carries the key as `id` and
has a name child, and to what it mapped to before when there is no such
child. -/
theorem objects_loop_get (cs : List xmlNode) (acc : hashtable_t String × Nat)
    (key : Option String) :
    (objects_loop cs acc).1.get key =
      ((cs.filterMap (object_entry key)).getLast?).or (acc.1.get key) := by
  induction cs generalizing acc with
  | nil => simp [objects_loop]
  | cons c rest ih =>
    unfold objects_loop
    rw [List.filterMap_cons]
    by_cases hb : xmlIsBlankNode c = true
    · have hn := name_of_blank c hb
      have h1 : object_entry key c = none := by
        unfold object_entry
        rw [hn]
        simp
      rw [if_pos hb, ih, h1]
    · rw [if_neg hb]
      by_cases h1 : c.name = "dpkginfo_object"
      · rw [if_pos h1, ih, names_loop_get]
        by_cases h2 : xmlGetProp c "id" = key
        · have h3 : object_entry key c = last_name c := by
            unfold object_entry
            rw [if_pos ⟨h1, h2⟩]
          rw [if_pos h2, h3]
          unfold last_name
          cases (last_child "name" c.xmlChildrenNode).map (fun c => c.content) with
          | none => rfl
          | some t =>
            simp only []
            rw [List.getLast?_cons]
            cases (List.filterMap (object_entry key) rest).getLast? <;> rfl
        · have h3 : object_entry key c = none := by
            unfold object_entry
            rw [if_neg (fun h => h2 h.2)]
          rw [if_neg h2, h3]
      · have h3 : object_entry key c = none := by
          unfold object_entry
          rw [if_neg (fun h => h1 h.1)]
        rw [if_neg h1, ih, h3]

/-- The ids of a section that starts with `c`. -/
theorem section_ids_cons (tag : String) (c : xmlNode) (rest : List xmlNode) :
    section_ids tag (c :: rest) =
      if c.name = tag then (xmlGetProp c "id").toList ++ section_ids tag rest
      else section_ids tag rest := by
  unfold section_ids
  rw [children_named_cons]
  by_cases h : c.name = tag
  · rw [if_pos h, if_pos h, List.filterMap_cons]
    cases xmlGetProp c "id" <;> rfl
  · rw [if_neg h, if_neg h]

/-- The id of a child with the tag is among the ids of the section. -/
theorem mem_section_ids (tag : String) (cs : List xmlNode) (x : xmlNode) (id : String)
    (hx : x ∈ cs) (hn : x.name = tag) (hid : xmlGetProp x "id" = some id) :
    id ∈ section_ids tag cs := by
  unfold section_ids children_named
  rw [List.mem_filterMap]
  refine ⟨x, ?_, hid⟩
  rw [List.mem_filter]
  exact ⟨hx, by simpa using hn⟩

/-- When the ids of a section are unique, the children with the tag and a given
id are the one child that carries it. -/
theorem children_with_id_unique (tag : String) (cs : List xmlNode)
    (h : (section_ids tag cs).Nodup) (x : xmlNode) (id : String)
    (hx : x ∈ cs) (hn : x.name = tag) (hid : xmlGetProp x "id" = some id) :
    children_with_id tag (some id) cs = [x] := by
  induction cs with
  | nil => cases hx
  | cons c rest ih =>
    rw [children_with_id_cons]
    rw [section_ids_cons] at h
    by_cases hc : c.name = tag ∧ xmlGetProp c "id" = some id
    · rw [if_pos hc]
      rw [if_pos hc.1, hc.2] at h
      have hnd : id ∉ section_ids tag rest := (List.nodup_cons.mp h).1
      have hrest : children_with_id tag (some id) rest = [] := by
        unfold children_with_id
        rw [List.filter_eq_nil_iff]
        intro y hy hp
        simp only [Bool.and_eq_true, beq_iff_eq] at hp
        exact hnd (mem_section_ids tag rest y id hy hp.1 hp.2)
      rw [hrest]
      rcases List.mem_cons.mp hx with hxc | hxr
      · rw [hxc]
      · exact absurd (mem_section_ids tag rest x id hxr hn hid) hnd
    · rw [if_neg hc]
      rcases List.mem_cons.mp hx with hxc | hxr
      · rw [hxc] at hn hid
        exact absurd ⟨hn, hid⟩ hc
      · have hr : (section_ids tag rest).Nodup := by
          by_cases hct : c.name = tag
          · rw [if_pos hct] at h
            exact (List.nodup_append.mp h).2.1
          · rw [if_neg hct] at h
            exact h
        exact ih hr hxr

/-- The entries of the objects section under a key are the last names of the
`dpkginfo_object` children that carry the key as `id`. -/
theorem filterMap_object_entry (key : Option String) (cs : List xmlNode) :
    cs.filterMap (object_entry key) =
      (children_with_id "dpkginfo_object" key cs).filterMap last_name := by
  induction cs with
  | nil => rfl
  | cons c rest ih =>
    rw [List.filterMap_cons, children_with_id_cons, ih]
    unfold object_entry
    by_cases hc : c.name = "dpkginfo_object" ∧ xmlGetProp c "id" = key
    · rw [if_pos hc, if_pos hc, List.filterMap_cons]
    · rw [if_neg hc, if_neg hc]

/-- With unique ids, the tests table maps the id of a `dpkginfo_test` child to
that child. -/
theorem tests_get_unique (cs : List xmlNode)
    (h : (section_ids "dpkginfo_test" cs).Nodup) (x : xmlNode) (id : String)
    (hx : x ∈ cs) (hn : x.name = "dpkginfo_test") (hid : xmlGetProp x "id" = some id) :
    (tests_loop cs (hashtable_create, 0)).1.get (some id) = some x := by
  rw [tests_loop_get, children_with_id_unique "dpkginfo_test" cs h x id hx hn hid]
  rfl

/-- With unique ids, the states table maps the id of a `dpkginfo_state` child to
that child. -/
theorem states_get_unique (cs : List xmlNode)
    (h : (section_ids "dpkginfo_state" cs).Nodup) (x : xmlNode) (id : String)
    (hx : x ∈ cs) (hn : x.name = "dpkginfo_state") (hid : xmlGetProp x "id" = some id) :
    (states_loop cs (hashtable_create, 0)).1.get (some id) = some x := by
  rw [states_loop_get, children_with_id_unique "dpkginfo_state" cs h x id hx hn hid]
  rfl

/-- With unique ids, the objects table maps the id of a `dpkginfo_object` child
to the text of its last name child, and to nothing when it has no name child. -/
theorem objects_get_unique (cs : List xmlNode)
    (h : (section_ids "dpkginfo_object" cs).Nodup) (x : xmlNode) (id : String)
    (hx : x ∈ cs) (hn : x.name = "dpkginfo_object") (hid : xmlGetProp x "id" = some id) :
    (objects_loop cs (hashtable_create, 0)).1.get (some id) = last_name x := by
  rw [objects_loop_get, filterMap_object_entry,
    children_with_id_unique "dpkginfo_object" cs h x id hx hn hid]
  cases hl : last_name x with
  | none => simp [List.filterMap_cons, hl, hashtable_create, hashtable_t.get]
  | some t => simp [List.filterMap_cons, hl]
/-- The last child with a tag is the last of the children with the tag. -/
theorem last_child_of_children_named (tag : String) (cs : List xmlNode) (x : xmlNode)
    (h : children_named tag cs = [x]) : last_child tag cs = some x := by
  unfold last_child
  unfold children_named at h
  rw [h]
  rfl

/-- C3 as stated fails: in the scenario document whose object `obj1` has the
name children `openssl` and `libssl`, the ids are unique in each section, the
test `tst1` has exactly one object child, which refers to `obj1`, an object
with a name child of text `openssl`, and exactly one state child, which refers
to `ste1`, a state with exactly one `evr` child, but the Criterion appended for
the leaf that refers to `tst1` has the object name `libssl`. -/
theorem extract_criteria_counterexample :
    (section_ids "dpkginfo_test" [scenario_test]).Nodup ∧
    (section_ids "dpkginfo_object" [scenario_object ["openssl", "libssl"]]).Nodup ∧
    (section_ids "dpkginfo_state" [scenario_state "1.0.0"]).Nodup ∧
    (children_named "object" scenario_test.xmlChildrenNode).map
      (fun oc => xmlGetProp oc "object_ref") = [some "obj1"] ∧
    (children_named "state" scenario_test.xmlChildrenNode).map
      (fun sc => xmlGetProp sc "state_ref") = [some "ste1"] ∧
    (∃ nm ∈ (scenario_object ["openssl", "libssl"]).xmlChildrenNode,
      nm.name = "name" ∧ nm.content = "openssl") ∧
    (children_named "evr" (scenario_state "1.0.0").xmlChildrenNode).map
      (fun e => (xmlGetProp e "operation", e.content)) = [(some "less than", "1.0.0")] ∧
    extract_criteria
        (tests_loop [scenario_test] (hashtable_create, 0)).1
        (objects_loop [scenario_object ["openssl", "libssl"]] (hashtable_create, 0)).1
        (states_loop [scenario_state "1.0.0"] (hashtable_create, 0)).1
        (some (oval_create (some "CVE-2020-0001") none)) scenario_criteria =
      some (some
        { cve := some "CVE-2020-0001"
          description := none
          criteria :=
            [{ tst_ref := some "tst1", ste_ref := some "ste1", obj_ref := some "obj1",
               obj_name := some "libssl", op := some "less than",
               version := some "1.0.0", complete := true }]
          complete := true }) := by
  refine ⟨by decide, by decide, by decide, by decide, by decide, ?_, by decide, by decide⟩
  exact ⟨.element "name" [] [.text "openssl"], List.mem_cons_self _ _, rfl, rfl⟩

/-- C3, amended: with tables built from sections with unique ids, when the
`test_ref` of a criterion leaf names a `dpkginfo_test` that has exactly one
object child, referring to a `dpkginfo_object` whose last name child has the
text `n`, and exactly one state child, referring to a `dpkginfo_state` with
exactly one `evr` child of operation `o` and text `v`, the Criterion that
`extract_criteria` appends has those three ids as `test_ref`, `object_ref` and
`state_ref`, object name `n`, operation `o`, version `v`, and is complete if and
only if `v` is not `0:0`. On the scenario document (obj1 openssl, ste1 less than
1.0.0, tst1) the run prints one complete record with that one complete
Criterion and counts 1 of 1; with the `evr` text `0:0` the Criterion and the
record are incomplete and the count is 0 of 1. -/
theorem extract_criteria_resolves (tsts objs stes : List xmlNode)
    (htu : (section_ids "dpkginfo_test" tsts).Nodup)
    (hou : (section_ids "dpkginfo_object" objs).Nodup)
    (hsu : (section_ids "dpkginfo_state" stes).Nodup)
    (tst obj ste oc sc e c : xmlNode) (tid oid sid n o v : String)
    (ht : tst ∈ tsts) (htn : tst.name = "dpkginfo_test")
    (hti : xmlGetProp tst "id" = some tid)
    (hoc : children_named "object" tst.xmlChildrenNode = [oc])
    (hocr : xmlGetProp oc "object_ref" = some oid)
    (hsc : children_named "state" tst.xmlChildrenNode = [sc])
    (hscr : xmlGetProp sc "state_ref" = some sid)
    (ho : obj ∈ objs) (hon : obj.name = "dpkginfo_object")
    (hoi : xmlGetProp obj "id" = some oid) (hname : last_name obj = some n)
    (hs : ste ∈ stes) (hsn : ste.name = "dpkginfo_state")
    (hsi : xmlGetProp ste "id" = some sid)
    (he : children_named "evr" ste.xmlChildrenNode = [e])
    (heo : xmlGetProp e "operation" = some o) (hev : e.content = v)
    (hc : c.name = "criterion") (hcr : xmlGetProp c "test_ref" = some tid)
    (oval : private_oval_t) (tag : String) (ps : List (String × String)) :
    extract_criteria
        (tests_loop tsts (hashtable_create, 0)).1
        (objects_loop objs (hashtable_create, 0)).1
        (states_loop stes (hashtable_create, 0)).1
        (some oval) (.element tag ps [c]) =
      some (some
        { oval with
          criteria := oval.criteria ++
            [{ tst_ref := some tid, ste_ref := some sid, obj_ref := some oid,
               obj_name := some n, op := some o, version := some v,
               complete := decide (v ≠ "0:0") }]
          complete := oval.complete || decide (v ≠ "0:0") }) ∧
    (process_oval_file "oval.xml" "os" "uri"
        (some (scenario_document ["openssl"] "1.0.0"
          [scenario_metadata, scenario_criteria]))).map
        (fun r => (r.result, r.printed, r.log.getLast?)) =
      some (EXIT_SUCCESS,
        [{ cve := some "CVE-2020-0001"
           description := none
           criteria :=
             [{ tst_ref := some "tst1", ste_ref := some "ste1", obj_ref := some "obj1",
                obj_name := some "openssl", op := some "less than",
                version := some "1.0.0", complete := true }]
           complete := true }],
        some (DBG1 "1 of 1 definitions are complete")) ∧
    (process_oval_file "oval.xml" "os" "uri"
        (some (scenario_document ["openssl"] "0:0"
          [scenario_metadata, scenario_criteria]))).map
        (fun r => (r.result, r.printed, r.log.getLast?)) =
      some (EXIT_SUCCESS,
        [{ cve := some "CVE-2020-0001"
           description := none
           criteria :=
             [{ tst_ref := some "tst1", ste_ref := some "ste1", obj_ref := some "obj1",
                obj_name := some "openssl", op := some "less than",
                version := some "0:0", complete := false }]
           complete := false }],
        some (DBG1 "0 of 1 definitions are complete")) := by
  refine ⟨?_, by decide, by decide⟩
  have h1 : (tests_loop tsts (hashtable_create, 0)).1.get (some tid) = some tst :=
    tests_get_unique tsts htu tst tid ht htn hti
  have h2 : (objects_loop objs (hashtable_create, 0)).1.get (some oid) = some n := by
    rw [objects_get_unique objs hou obj oid ho hon hoi, hname]
  have h3 : (states_loop stes (hashtable_create, 0)).1.get (some sid) = some ste :=
    states_get_unique stes hsu ste sid hs hsn hsi
  have h4 := last_child_of_children_named "object" _ oc hoc
  have h5 := last_child_of_children_named "state" _ sc hsc
  have h6 := last_child_of_children_named "evr" _ e he
  have hres : resolve (tests_loop tsts (hashtable_create, 0)).1
      (objects_loop objs (hashtable_create, 0)).1
      (states_loop stes (hashtable_create, 0)).1 c =
      { tst_ref := some tid, ste_ref := some sid, obj_ref := some oid,
        obj_name := some n, op := some o, version := some v,
        complete := decide (v ≠ "0:0") } := by
    simp only [resolve, criterion_locals, hcr, h1, test_loop_eq, h4, h5, hsc, hocr, hscr,
      h2, List.foldl_cons, List.foldl_nil, state_step, h3, evr_loop_eq, h6, heo, hev,
      Option.map_some', Option.getD_some]
    simp
  rw [extract_criteria_some]
  simp only [criterion_leaves, criterion_leaves_list, hc, if_true, List.append_nil,
    List.map_cons, List.map_nil, hres, append_criteria]
  simp

/-- C3, amended, at a concrete input: the tables built from the sections of the
scenario document and its criteria. -/
theorem extract_criteria_resolves_witness :
    extract_criteria
        (tests_loop [scenario_test] (hashtable_create, 0)).1
        (objects_loop [scenario_object ["openssl"]] (hashtable_create, 0)).1
        (states_loop [scenario_state "1.0.0"] (hashtable_create, 0)).1
        (some (oval_create (some "CVE-2020-0001") none))
        (.element "criteria" [] [.element "criterion" [("test_ref", "tst1")] []]) =
      some (some
        { oval_create (some "CVE-2020-0001") none with
          criteria := (oval_create (some "CVE-2020-0001") none).criteria ++
            [{ tst_ref := some "tst1", ste_ref := some "ste1", obj_ref := some "obj1",
               obj_name := some "openssl", op := some "less than",
               version := some "1.0.0", complete := decide ("1.0.0" ≠ "0:0") }]
          complete := (oval_create (some "CVE-2020-0001") none).complete ||
            decide ("1.0.0" ≠ "0:0") }) :=
  (extract_criteria_resolves [scenario_test] [scenario_object ["openssl"]]
    [scenario_state "1.0.0"] (by decide) (by decide) (by decide)
    scenario_test (scenario_object ["openssl"]) (scenario_state "1.0.0")
    (.element "object" [("object_ref", "obj1")] [])
    (.element "state" [("state_ref", "ste1")] [])
    (.element "evr" [("operation", "less than")] [.text "1.0.0"])
    (.element "criterion" [("test_ref", "tst1")] [])
    "tst1" "obj1" "ste1" "openssl" "less than" "1.0.0"
    (List.mem_singleton.mpr rfl) rfl rfl rfl rfl rfl rfl
    (List.mem_singleton.mpr rfl) rfl rfl rfl
    (List.mem_singleton.mpr rfl) rfl rfl rfl rfl rfl rfl rfl
    (oval_create (some "CVE-2020-0001") none) "criteria" []).1
/-- C4: for every string `s` that is not a key of the tests table, whatever the
three tables hold, `extract_criteria` on a record and a node whose criterion
leaf has `test_ref` equal to `s` does not fail and appends a Criterion whose
`test_ref` is `s`, whose other five fields are absent and whose complete flag
is false; the complete flag of the record is unchanged. -/
theorem extract_criteria_unknown_test (tests : hashtable_t xmlNode)
    (objects : hashtable_t String) (states : hashtable_t xmlNode)
    (oval : private_oval_t) (tag : String) (ps : List (String × String))
    (c : xmlNode) (s : String)
    (hc : c.name = "criterion")
    (hs : xmlGetProp c "test_ref" = some s)
    (hk : ∀ p ∈ tests, p.1 ≠ some s) :
    extract_criteria tests objects states (some oval) (.element tag ps [c]) =
      some (some
        { oval with
          criteria := oval.criteria ++
            [{ tst_ref := some s, ste_ref := none, obj_ref := none, obj_name := none,
               op := none, version := none, complete := false }] }) := by
  have hget : tests.get (some s) = none := by
    unfold hashtable_t.get
    have hf : List.find? (fun p => p.1 == some s) tests = none := by
      rw [List.find?_eq_none]
      intro p hp
      simpa using hk p hp
    rw [hf]
    rfl
  rw [extract_criteria_some]
  simp [criterion_leaves, criterion_leaves_list, hc, resolve, criterion_locals, hs, hget,
    append_criteria]

/-- C4, at a concrete input: the tests table holds `tst1` only and the leaf
refers to `missing_id`. -/
theorem extract_criteria_unknown_test_witness :
    extract_criteria
        [(some "tst1", xmlNode.element "dpkginfo_test" [("id", "tst1")] [])] [] []
        (some (oval_create (some "CVE-2020-0001") none))
        (.element "criteria" []
          [.element "criterion" [("test_ref", "missing_id")] []]) =
      some (some
        { oval_create (some "CVE-2020-0001") none with
          criteria := (oval_create (some "CVE-2020-0001") none).criteria ++
            [{ tst_ref := some "missing_id", ste_ref := none, obj_ref := none,
               obj_name := none, op := none, version := none, complete := false }] }) :=
  extract_criteria_unknown_test _ [] [] _ "criteria" []
    (.element "criterion" [("test_ref", "missing_id")] []) "missing_id"
    (by decide) (by decide) (by decide)
/-- C5: for every criteria tree and every three tables, the Criteria that
`extract_criteria` appends to the record are the resolved criterion leaves of
the tree in document order, and the run on the tree with every nested criteria
group replaced by its children in place gives the same result, on a record and
on a NULL pointer alike; the flattened tree has no criteria group among its
children, and its leaves are its criterion children, those of the tree, in the
same order. -/
theorem extract_criteria_flatten (tests : hashtable_t xmlNode)
    (objects : hashtable_t String) (states : hashtable_t xmlNode)
    (node : xmlNode) (oval : private_oval_t) :
    extract_criteria tests objects states (some oval) node =
      some (some
        { oval with
          criteria := oval.criteria ++
            (criterion_leaves node).map (resolve tests objects states)
          complete := oval.complete ||
            ((criterion_leaves node).map (resolve tests objects states)).any
              (fun c => c.complete) }) ∧
    extract_criteria tests objects states (some oval) (flatten node) =
      extract_criteria tests objects states (some oval) node ∧
    extract_criteria tests objects states none (flatten node) =
      extract_criteria tests objects states none node ∧
    (∀ c ∈ (flatten node).xmlChildrenNode, c.name ≠ "criteria") ∧
    children_named "criterion" (flatten node).xmlChildrenNode = criterion_leaves node := by
  have hleaves : criterion_leaves (flatten node) = criterion_leaves node := by
    cases node with
    | element n ps cs =>
      simp only [flatten, criterion_leaves]
      exact criterion_leaves_flat_list cs
    | text s => rfl
  have hflat : ∀ c ∈ (flatten node).xmlChildrenNode, c.name ≠ "criteria" := by
    cases node with
    | element n ps cs =>
      simp only [flatten, xmlNode.xmlChildrenNode]
      exact flat_list_no_group cs
    | text s => simp [flatten, xmlNode.xmlChildrenNode]
  refine ⟨?_, ?_, ?_, hflat, ?_⟩
  · rw [extract_criteria_some]
    rfl
  · rw [extract_criteria_some, extract_criteria_some, hleaves]
  · have h1 := extract_criteria_none tests objects states node
    have h2 := extract_criteria_none tests objects states (flatten node)
    rw [hleaves] at h2
    by_cases h3 : criterion_leaves node = []
    · rw [h1.1 h3, h2.1 h3]
    · rw [h1.2 h3, h2.2 h3]
  · rw [← criterion_leaves_list_flat _ hflat, ← hleaves]
    cases node with
    | element n ps cs => rfl
    | text s => rfl
/-! ## The driver (oval-updater.c): locating the sections -/

/-- The local `defs` stays NULL exactly when it was NULL and no child is named
`definitions`. -/
theorem sections_loop_defs (cs : List xmlNode) (s : sections_t) :
    (sections_loop cs s).defs.isNone =
      (s.defs.isNone && !cs.any (fun c => c.name == "definitions")) := by
  induction cs generalizing s with
  | nil => simp [sections_loop]
  | cons c rest ih =>
    unfold sections_loop
    by_cases hb : xmlIsBlankNode c = true
    · have hn := name_of_blank c hb
      rw [if_pos hb, ih]
      simp [hn]
    · rw [if_neg hb]
      by_cases h1 : c.name = "definitions"
      · rw [if_pos h1, ih]
        simp [h1]
      · rw [if_neg h1]
        split_ifs <;> rw [ih] <;> simp [beq_eq_false_iff_ne.mpr h1]

/-- The local `objs` stays NULL exactly when it was NULL and no child is named
`objects`. -/
theorem sections_loop_objs (cs : List xmlNode) (s : sections_t) :
    (sections_loop cs s).objs.isNone =
      (s.objs.isNone && !cs.any (fun c => c.name == "objects")) := by
  induction cs generalizing s with
  | nil => simp [sections_loop]
  | cons c rest ih =>
    unfold sections_loop
    by_cases hb : xmlIsBlankNode c = true
    · have hn := name_of_blank c hb
      rw [if_pos hb, ih]
      simp [hn]
    · rw [if_neg hb]
      by_cases h1 : c.name = "objects"
      · have h0 : c.name ≠ "definitions" := by rw [h1]; decide
        rw [if_neg h0, if_pos h1, ih]
        simp [h1]
      · split_ifs <;> rw [ih] <;> simp [beq_eq_false_iff_ne.mpr h1]

/-- The local `tsts` stays NULL exactly when it was NULL and no child is named
`tests`. -/
theorem sections_loop_tsts (cs : List xmlNode) (s : sections_t) :
    (sections_loop cs s).tsts.isNone =
      (s.tsts.isNone && !cs.any (fun c => c.name == "tests")) := by
  induction cs generalizing s with
  | nil => simp [sections_loop]
  | cons c rest ih =>
    unfold sections_loop
    by_cases hb : xmlIsBlankNode c = true
    · have hn := name_of_blank c hb
      rw [if_pos hb, ih]
      simp [hn]
    · rw [if_neg hb]
      by_cases h1 : c.name = "tests"
      · have h0 : c.name ≠ "definitions" := by rw [h1]; decide
        have h2 : c.name ≠ "objects" := by rw [h1]; decide
        rw [if_neg h0, if_neg h2, if_pos h1, ih]
        simp [h1]
      · split_ifs <;> rw [ih] <;> simp [beq_eq_false_iff_ne.mpr h1]

/-- The local `stes` stays NULL exactly when it was NULL and no child is named
`states`. -/
theorem sections_loop_stes (cs : List xmlNode) (s : sections_t) :
    (sections_loop cs s).stes.isNone =
      (s.stes.isNone && !cs.any (fun c => c.name == "states")) := by
  induction cs generalizing s with
  | nil => simp [sections_loop]
  | cons c rest ih =>
    unfold sections_loop
    by_cases hb : xmlIsBlankNode c = true
    · have hn := name_of_blank c hb
      rw [if_pos hb, ih]
      simp [hn]
    · rw [if_neg hb]
      by_cases h1 : c.name = "states"
      · have h0 : c.name ≠ "definitions" := by rw [h1]; decide
        have h2 : c.name ≠ "objects" := by rw [h1]; decide
        have h3 : c.name ≠ "tests" := by rw [h1]; decide
        rw [if_neg h0, if_neg h2, if_neg h3, if_pos h1, ih]
        simp [h1]
      · split_ifs <;> rw [ih] <;> simp [beq_eq_false_iff_ne.mpr h1]

/-- C6: for every parsed document whose root is `oval_definitions` and lacks at
least one of the direct children `definitions`, `objects`, `tests`, `states`,
`process_oval_file` returns `EXIT_FAILURE`, builds no table, hands no record to
`print`, and writes exactly the lines `no <section> element found` of the
missing sections, in the order definitions, objects, tests, states: each line
is written if and only if its section is missing. -/
theorem process_oval_file_missing_section (path os uri : String) (root : xmlNode)
    (hroot : root.name = "oval_definitions")
    (hmiss : section_present root "definitions" = false ∨
      section_present root "objects" = false ∨
      section_present root "tests" = false ∨
      section_present root "states" = false) :
    ∃ r : run_t,
      process_oval_file path os uri (some ⟨some root⟩) = some r ∧
      r.result = EXIT_FAILURE ∧ r.index = none ∧ r.printed = [] ∧
      r.log =
        (if section_present root "definitions" then []
         else [DBG1 "  no definitions element found"]) ++
        (if section_present root "objects" then []
         else [DBG1 "  no objects element found"]) ++
        (if section_present root "tests" then []
         else [DBG1 "  no tests element found"]) ++
        (if section_present root "states" then []
         else [DBG1 "  no states element found"]) ∧
      ((DBG1 "  no definitions element found" ∈ r.log ↔
        section_present root "definitions" = false) ∧
       (DBG1 "  no objects element found" ∈ r.log ↔
        section_present root "objects" = false) ∧
       (DBG1 "  no tests element found" ∈ r.log ↔
        section_present root "tests" = false) ∧
       (DBG1 "  no states element found" ∈ r.log ↔
        section_present root "states" = false)) := by
  have hd : (sections_loop root.xmlChildrenNode
      { defs := none, objs := none, tsts := none, stes := none }).defs.isNone =
      !section_present root "definitions" := by
    rw [sections_loop_defs]
    rfl
  have ho : (sections_loop root.xmlChildrenNode
      { defs := none, objs := none, tsts := none, stes := none }).objs.isNone =
      !section_present root "objects" := by
    rw [sections_loop_objs]
    rfl
  have ht : (sections_loop root.xmlChildrenNode
      { defs := none, objs := none, tsts := none, stes := none }).tsts.isNone =
      !section_present root "tests" := by
    rw [sections_loop_tsts]
    rfl
  have he : (sections_loop root.xmlChildrenNode
      { defs := none, objs := none, tsts := none, stes := none }).stes.isNone =
      !section_present root "states" := by
    rw [sections_loop_stes]
    rfl
  have hlog : missing_lines (sections_loop root.xmlChildrenNode
      { defs := none, objs := none, tsts := none, stes := none }) =
      (if section_present root "definitions" then []
       else [DBG1 "  no definitions element found"]) ++
      (if section_present root "objects" then []
       else [DBG1 "  no objects element found"]) ++
      (if section_present root "tests" then []
       else [DBG1 "  no tests element found"]) ++
      (if section_present root "states" then []
       else [DBG1 "  no states element found"]) := by
    unfold missing_lines
    rw [hd, ho, ht, he]
    cases section_present root "definitions" <;> cases section_present root "objects" <;>
      cases section_present root "tests" <;> cases section_present root "states" <;> rfl
  have hrun : process_oval_file path os uri (some ⟨some root⟩) =
      some { result := EXIT_FAILURE
             log := missing_lines (sections_loop root.xmlChildrenNode
               { defs := none, objs := none, tsts := none, stes := none })
             index := none, printed := [] } := by
    simp only [process_oval_file, hroot, ne_eq, not_true_eq_false, if_false]
    split
    · rename_i defs objs tsts stes h1 h2 h3 h4
      rw [h1] at hd
      rw [h2] at ho
      rw [h3] at ht
      rw [h4] at he
      have hd1 : section_present root "definitions" = true := by simpa using hd.symm
      have ho1 : section_present root "objects" = true := by simpa using ho.symm
      have ht1 : section_present root "tests" = true := by simpa using ht.symm
      have he1 : section_present root "states" = true := by simpa using he.symm
      rw [hd1, ho1, ht1, he1] at hmiss
      simp at hmiss
    · rfl
  refine ⟨_, hrun, rfl, rfl, rfl, hlog, ?_⟩
  simp only [hlog]
  cases section_present root "definitions" <;> cases section_present root "objects" <;>
    cases section_present root "tests" <;> cases section_present root "states" <;>
    decide

/-- C6, at a concrete input: a root `oval_definitions` with the sections
`definitions` and `objects` only; the two lines for tests and states are
written and nothing else. -/
theorem process_oval_file_missing_section_witness :
    ∃ r : run_t,
      process_oval_file "oval.xml" "os" "uri"
        (some ⟨some (.element "oval_definitions" []
          [ .text "\n  ", .element "definitions" [] [],
            .element "objects" [] [] ])⟩) = some r ∧
      r.result = EXIT_FAILURE ∧ r.index = none ∧ r.printed = [] ∧
      r.log = [DBG1 "  no tests element found", DBG1 "  no states element found"] := by
  obtain ⟨r, h1, h2, h3, h4, h5, _⟩ :=
    process_oval_file_missing_section "oval.xml" "os" "uri"
      (.element "oval_definitions" []
        [ .text "\n  ", .element "definitions" [] [], .element "objects" [] [] ])
      rfl (Or.inr (Or.inr (Or.inl (by decide))))
  exact ⟨r, h1, h2, h3, h4, h5.trans (by decide)⟩
/-! ## The driver (oval-updater.c): the definitions -/

/-- C7 fails on the code: the scenario document has the root `oval_definitions`
and the four sections, but when its vulnerability definition has a criteria
child and no metadata child, or the criteria child before the metadata child,
`extract_criteria` is called with the NULL record pointer and the run faults
at `oval->add_criterion`; with the metadata child first the run returns
`EXIT_SUCCESS`. -/
theorem process_oval_file_null_record :
    (scenario_document ["openssl"] "1.0.0" [scenario_criteria]).root.map
        (fun root => (root.name, section_present root "definitions",
          section_present root "objects", section_present root "tests",
          section_present root "states")) =
      some ("oval_definitions", true, true, true, true) ∧
    (process_oval_file "oval.xml" "os" "uri"
        (some (scenario_document ["openssl"] "1.0.0" [scenario_criteria]))).map
        (fun r => r.result) = none ∧
    (process_oval_file "oval.xml" "os" "uri"
        (some (scenario_document ["openssl"] "1.0.0"
          [scenario_criteria, scenario_metadata]))).map
        (fun r => r.result) = none ∧
    (process_oval_file "oval.xml" "os" "uri"
        (some (scenario_document ["openssl"] "1.0.0"
          [scenario_metadata, scenario_criteria]))).map
        (fun r => r.result) = some EXIT_SUCCESS := by
  refine ⟨by decide, by decide, by decide, by decide⟩
/-- The chars of a concatenation are the chars of its parts. -/
theorem c_chars_append (a b : String) : c_chars (a ++ b) = c_chars a ++ c_chars b := by
  simp [c_chars, String.toUTF8, List.flatMap_append]

/-- The chars of a run of the letter `a` are as many bytes 97. -/
theorem c_chars_replicate_a (n : Nat) :
    c_chars (String.mk (List.replicate n 'a')) = List.replicate n 97 := by
  induction n with
  | zero => rfl
  | succ k ih =>
    have h : String.mk (List.replicate (k + 1) 'a') =
        "a" ++ String.mk (List.replicate k 'a') := by
      apply String.ext
      simp [List.replicate_succ]
    rw [h, c_chars_append, ih, List.replicate_succ]
    rfl

/-- The chars of a text whose characters are all below 128 are its characters,
one char each. -/
theorem c_chars_ascii (cs : List Char) (h : ∀ c ∈ cs, c.toNat < 128) :
    c_chars (String.mk cs) = cs.map Char.toNat := by
  induction cs with
  | nil => rfl
  | cons c rest ih =>
    have hc : c.toNat < 128 := h c (List.mem_cons_self _ _)
    have hr := ih (fun d hd => h d (List.mem_cons_of_mem _ hd))
    simp only [c_chars, String.toUTF8, List.flatMap_cons, List.map_append,
      List.map_cons] at hr ⊢
    rw [hr]
    have h1 : c.val ≤ 127 := by
      have h2 : c.val.toNat < 128 := hc
      rw [UInt32.le_def]
      show c.val.toNat ≤ 127
      omega
    simp only [String.utf8EncodeChar, h1, if_true, List.map_cons, List.map_nil,
      List.singleton_append, List.cons.injEq, and_true]
    show (c.val.toUInt8).toNat = c.val.toNat
    have h2 : c.val.toNat < 128 := hc
    simp [UInt32.toUInt8, UInt8.toNat, Nat.toUInt8, UInt8.ofNat]
    omega

set_option maxRecDepth 100000 in
/-- C8 as stated fails: a description of 100 letters e-acute has 100
characters, not more than 150, but its UTF-8 text has 200 chars, more than
`max_char`, so `print_metadata` keeps the first 150 chars, which are 75 letters,
and appends `...`; the line is not the description unmodified. -/
theorem print_metadata_counterexample :
    (String.mk (List.replicate 100 (Char.ofNat 233))).length = 100 ∧
    strlen (String.mk (List.replicate 100 (Char.ofNat 233))) = 200 ∧
    print_metadata
        ⟨none, some (String.mk (List.replicate 100 (Char.ofNat 233))), [], false⟩ 3 =
      [(3, c_chars "  " ++ c_chars (String.mk (List.replicate 75 (Char.ofNat 233))) ++
        c_chars "...")] ∧
    print_metadata
        ⟨none, some (String.mk (List.replicate 100 (Char.ofNat 233))), [], false⟩ 3 ≠
      [DBG3 ("  " ++ String.mk (List.replicate 100 (Char.ofNat 233)))] := by
  refine ⟨by decide, by decide, by decide, by decide⟩

/-- C8, amended: for every record with a description `d`, `print_metadata`
renders the description line, last, at the level it is given, as two spaces,
the first 150 chars (bytes of the UTF-8 text) of `d` and `...` when `d` is
longer than 150 chars, and as two spaces and `d` unmodified otherwise; the part
kept has 150 chars and is a prefix of the chars of `d`; when the characters of
`d` are all below 128 its chars are its characters; a description of exactly
150 chars is not truncated and one of 151 is. -/
theorem print_metadata_description (cve : Option String)
    (criteria : List criterion_t) (complete : Bool) (level : Nat) (d : String) :
    print_metadata ⟨cve, some d, criteria, complete⟩ level =
      (cve.map (fun c => dbg_at level (c_chars c))).toList ++
      [dbg_at level
        (if 150 < strlen d then c_chars "  " ++ (c_chars d).take 150 ++ c_chars "..."
         else c_chars "  " ++ c_chars d)] ∧
    (150 < strlen d →
      ((c_chars d).take 150).length = 150 ∧
      c_chars d = (c_chars d).take 150 ++ (c_chars d).drop 150) ∧
    strlen d = d.utf8ByteSize ∧
    ((∀ c ∈ d.toList, c.toNat < 128) →
      c_chars d = d.toList.map Char.toNat ∧ strlen d = d.length) ∧
    strlen (String.mk (List.replicate 150 'a')) = 150 ∧
    print_metadata ⟨cve, some (String.mk (List.replicate 150 'a')), criteria, complete⟩
        level =
      (cve.map (fun c => dbg_at level (c_chars c))).toList ++
      [dbg_at level (c_chars "  " ++ c_chars (String.mk (List.replicate 150 'a')))] ∧
    strlen (String.mk (List.replicate 151 'a')) = 151 ∧
    print_metadata ⟨cve, some (String.mk (List.replicate 151 'a')), criteria, complete⟩
        level =
      (cve.map (fun c => dbg_at level (c_chars c))).toList ++
      [dbg_at level (c_chars "  " ++ c_chars (String.mk (List.replicate 150 'a')) ++
        c_chars "...")] := by
  have key : ∀ s : String, print_metadata ⟨cve, some s, criteria, complete⟩ level =
      (cve.map (fun c => dbg_at level (c_chars c))).toList ++
      [dbg_at level
        (if 150 < strlen s then c_chars "  " ++ (c_chars s).take 150 ++ c_chars "..."
         else c_chars "  " ++ c_chars s)] := by
    intro s
    unfold print_metadata
    by_cases h : 150 < strlen s <;> cases cve <;> simp [h, c_chars_append]
  have hlen : ∀ n, strlen (String.mk (List.replicate n 'a')) = n := by
    intro n
    unfold strlen
    rw [c_chars_replicate_a, List.length_replicate]
  refine ⟨key d, ?_, ?_, ?_, hlen 150, ?_, hlen 151, ?_⟩
  · intro h
    constructor
    · rw [List.length_take]
      exact Nat.min_eq_left (Nat.le_of_lt h)
    · exact (List.take_append_drop 150 (c_chars d)).symm
  · unfold strlen c_chars
    rw [List.length_map, ← String.size_toUTF8]
    rfl
  · intro h
    have h1 : c_chars d = d.toList.map Char.toNat := c_chars_ascii d.toList h
    refine ⟨h1, ?_⟩
    unfold strlen
    rw [h1, List.length_map]
    rfl
  · rw [key, hlen 150, if_neg (by decide)]
  · rw [key, hlen 151, if_pos (by decide)]
    have h2 : (c_chars (String.mk (List.replicate 151 'a'))).take 150 =
        c_chars (String.mk (List.replicate 150 'a')) := by
      rw [c_chars_replicate_a, c_chars_replicate_a, List.take_replicate]
      rfl
    rw [h2]
/-- C9 as stated fails: in an objects section with the single object `obj1`
that has the name children `openssl` and `libssl`, the ids are unique and `obj1`
has a name child whose text is `openssl`, but the objects table maps `obj1` to
`libssl` only. -/
theorem objects_index_counterexample :
    (section_ids "dpkginfo_object" [scenario_object ["openssl", "libssl"]]).Nodup ∧
    (objects_loop [scenario_object ["openssl", "libssl"]] (hashtable_create, 0)).1.get
      (some "obj1") = some "libssl" ∧
    ¬ (∀ id t : String,
        (objects_loop [scenario_object ["openssl", "libssl"]]
            (hashtable_create, 0)).1.get (some id) = some t ↔
          ∃ obj ∈ [scenario_object ["openssl", "libssl"]],
            obj.name = "dpkginfo_object" ∧ xmlGetProp obj "id" = some id ∧
            ∃ nm ∈ obj.xmlChildrenNode, nm.name = "name" ∧ nm.content = t) := by
  refine ⟨by decide, by decide, ?_⟩
  intro h
  have h1 := (h "obj1" "openssl").mpr
    ⟨scenario_object ["openssl", "libssl"], List.mem_singleton.mpr rfl, rfl, rfl,
      .element "name" [] [.text "openssl"], List.mem_cons_self _ _, rfl, rfl⟩
  exact absurd h1 (by decide)

/-- C9, amended: for every objects section whose `dpkginfo_object` ids are
unique, after the index build the objects table maps an id to a text `t` if and
only if the `dpkginfo_object` child with that id has a name child and `t` is the
text of its last name child; it has an entry for an id if and only if a
`dpkginfo_object` child with that id has a name child. -/
theorem objects_index_last_name (cs : List xmlNode)
    (h : (section_ids "dpkginfo_object" cs).Nodup) (id : String) :
    (∀ t : String,
      (objects_loop cs (hashtable_create, 0)).1.get (some id) = some t ↔
        ∃ obj ∈ cs, obj.name = "dpkginfo_object" ∧ xmlGetProp obj "id" = some id ∧
          last_name obj = some t) ∧
    ((objects_loop cs (hashtable_create, 0)).1.get (some id) ≠ none ↔
      ∃ obj ∈ cs, obj.name = "dpkginfo_object" ∧ xmlGetProp obj "id" = some id ∧
        ∃ nm ∈ obj.xmlChildrenNode, nm.name = "name") := by
  have key : ∀ t : String,
      (objects_loop cs (hashtable_create, 0)).1.get (some id) = some t ↔
        ∃ obj ∈ cs, obj.name = "dpkginfo_object" ∧ xmlGetProp obj "id" = some id ∧
          last_name obj = some t := by
    intro t
    constructor
    · intro hg
      rw [objects_loop_get] at hg
      have hg1 : (List.filterMap (object_entry (some id)) cs).getLast? = some t := by
        cases hl : (List.filterMap (object_entry (some id)) cs).getLast? with
        | none =>
          rw [hl] at hg
          simp [hashtable_create, hashtable_t.get] at hg
        | some u =>
          rw [hl] at hg
          simpa using hg
      have hm : t ∈ List.filterMap (object_entry (some id)) cs :=
        List.mem_of_getLast?_eq_some hg1
      obtain ⟨obj, hobj, he⟩ := List.mem_filterMap.mp hm
      unfold object_entry at he
      by_cases hc : obj.name = "dpkginfo_object" ∧ xmlGetProp obj "id" = some id
      · rw [if_pos hc] at he
        exact ⟨obj, hobj, hc.1, hc.2, he⟩
      · rw [if_neg hc] at he
        cases he
    · rintro ⟨obj, hobj, hn, hid, hl⟩
      rw [objects_get_unique cs h obj id hobj hn hid, hl]
  refine ⟨key, ?_⟩
  have hname : ∀ obj : xmlNode,
      (∃ t, last_name obj = some t) ↔ ∃ nm ∈ obj.xmlChildrenNode, nm.name = "name" := by
    intro obj
    unfold last_name last_child
    constructor
    · rintro ⟨t, ht⟩
      cases hl : (List.filter (fun c => c.name == "name") obj.xmlChildrenNode).getLast? with
      | none => rw [hl] at ht; cases ht
      | some nm =>
        have hm := List.mem_of_getLast?_eq_some hl
        rw [List.mem_filter] at hm
        exact ⟨nm, hm.1, by simpa using hm.2⟩
    · rintro ⟨nm, hnm, hn⟩
      have hm : nm ∈ List.filter (fun c => c.name == "name") obj.xmlChildrenNode := by
        rw [List.mem_filter]
        exact ⟨hnm, by simpa using hn⟩
      cases hl : (List.filter (fun c => c.name == "name") obj.xmlChildrenNode).getLast? with
      | none =>
        rw [List.getLast?_eq_none_iff] at hl
        rw [hl] at hm
        cases hm
      | some last => exact ⟨last.content, rfl⟩
  constructor
  · intro hne
    cases hg : (objects_loop cs (hashtable_create, 0)).1.get (some id) with
    | none => exact absurd hg hne
    | some t =>
      obtain ⟨obj, hobj, hn, hid, hl⟩ := (key t).mp hg
      exact ⟨obj, hobj, hn, hid, (hname obj).mp ⟨t, hl⟩⟩
  · rintro ⟨obj, hobj, hn, hid, hnm⟩
    obtain ⟨t, hl⟩ := (hname obj).mpr hnm
    rw [(key t).mpr ⟨obj, hobj, hn, hid, hl⟩]
    simp

/-- C9, amended, at a concrete input: the object `obj1` with the name children
`openssl` and `libssl` is mapped to `libssl`. -/
theorem objects_index_last_name_witness :
    (objects_loop [scenario_object ["openssl", "libssl"]] (hashtable_create, 0)).1.get
      (some "obj1") = some "libssl" :=
  ((objects_index_last_name [scenario_object ["openssl", "libssl"]] (by decide)
      "obj1").1 "libssl").mpr
    ⟨scenario_object ["openssl", "libssl"], List.mem_singleton.mpr rfl, rfl, rfl, rfl⟩
/-- C11 as stated fails: for a criterion node that carries no `test_ref`
attribute, `xmlGetProp` returns NULL and the Criterion appended has its
`test_ref` absent. -/
theorem extract_criteria_test_ref_counterexample :
    extract_criteria [] [] [] (some (oval_create (some "CVE-2020-0001") none))
        (.element "criteria" []
          [.element "criterion" [("comment", "openssl is installed")] []]) =
      some (some
        { cve := some "CVE-2020-0001"
          description := none
          criteria :=
            [{ tst_ref := none, ste_ref := none, obj_ref := none, obj_name := none,
               op := none, version := none, complete := false }]
          complete := false }) := by
  decide

/-- C11, amended: for every criterion node visited by `extract_criteria`, the
Criterion appended has as `test_ref` the `test_ref` attribute of the node: it
is present whenever the node carries the attribute, and absent when the node
does not; when every criterion leaf of the tree carries the attribute, every
Criterion appended has its `test_ref` present. -/
theorem extract_criteria_test_ref (tests : hashtable_t xmlNode)
    (objects : hashtable_t String) (states : hashtable_t xmlNode)
    (node : xmlNode) (oval : private_oval_t) :
    ∃ r added,
      extract_criteria tests objects states (some oval) node = some (some r) ∧
      r.criteria = oval.criteria ++ added ∧
      added.map (fun cr => cr.tst_ref) =
        (criterion_leaves node).map (fun c => xmlGetProp c "test_ref") ∧
      List.Forall₂
        (fun c cr => cr.tst_ref = xmlGetProp c "test_ref" ∧
          (xmlGetProp c "test_ref" ≠ none → cr.tst_ref ≠ none) ∧
          (xmlGetProp c "test_ref" = none → cr.tst_ref = none))
        (criterion_leaves node) added ∧
      ((∀ c ∈ criterion_leaves node, xmlGetProp c "test_ref" ≠ none) →
        ∀ cr ∈ added, cr.tst_ref ≠ none) := by
  refine ⟨_, (criterion_leaves node).map (resolve tests objects states),
    extract_criteria_some tests objects states node oval, rfl, ?_, ?_, ?_⟩
  · rw [List.map_map]
    rfl
  · rw [List.forall₂_map_right_iff, List.forall₂_same]
    intro c _
    have h1 : (resolve tests objects states c).tst_ref = xmlGetProp c "test_ref" := rfl
    exact ⟨h1, fun h => by rw [h1]; exact h, fun h => by rw [h1]; exact h⟩
  · intro h cr hcr
    obtain ⟨c, hc, hcc⟩ := List.mem_map.mp hcr
    rw [← hcc]
    exact h c hc

/-- C11, amended, at a concrete input: a criteria tree whose first leaf carries
`test_ref` equal to `tst1` and whose second leaf carries none. -/
theorem extract_criteria_test_ref_witness :
    ∃ r added,
      extract_criteria [] [] [] (some (oval_create none none)) mixed_criteria =
        some (some r) ∧
      r.criteria = (oval_create none none).criteria ++ added ∧
      added.map (fun cr => cr.tst_ref) = [some "tst1", none] := by
  obtain ⟨r, added, h1, h2, h3, _⟩ :=
    extract_criteria_test_ref [] [] [] mixed_criteria (oval_create none none)
  exact ⟨r, added, h1, h2, h3.trans (by decide)⟩
/-! ## The criterion branch: states, objects and tests -/

/-- The last child with a tag is a child and carries the tag. -/
theorem last_child_mem (tag : String) (cs : List xmlNode) (x : xmlNode)
    (h : last_child tag cs = some x) : x ∈ cs ∧ x.name = tag := by
  unfold last_child at h
  have hm := List.mem_of_getLast?_eq_some h
  rw [List.mem_filter] at hm
  exact ⟨hm.1, by simpa using hm.2⟩

/-- The state children of a test, taken in turn, leave `op` and `version` as they
were or set them from the last `evr` child of a state that one of them names in
the states table. -/
theorem foldl_state_step (states : hashtable_t xmlNode) (scs : List xmlNode)
    (acc : Option String × Option String) :
    scs.foldl (state_step states) acc = acc ∨
    ∃ sc ∈ scs, ∃ ste e, states.get (xmlGetProp sc "state_ref") = some ste ∧
      last_child "evr" ste.xmlChildrenNode = some e ∧
      scs.foldl (state_step states) acc = (xmlGetProp e "operation", some e.content) := by
  induction scs generalizing acc with
  | nil => exact Or.inl rfl
  | cons sc rest ih =>
    rw [List.foldl_cons]
    rcases ih (state_step states acc sc) with h | ⟨sc1, hsc1, ste, e, h1, h2, h3⟩
    · rw [h]
      unfold state_step
      cases hg : states.get (xmlGetProp sc "state_ref") with
      | none => exact Or.inl rfl
      | some ste =>
        simp only []
        rw [evr_loop_eq]
        cases he : last_child "evr" ste.xmlChildrenNode with
        | none => exact Or.inl rfl
        | some e =>
          exact Or.inr ⟨sc, List.mem_cons_self _ _, ste, e, hg, he, rfl⟩
    · exact Or.inr ⟨sc1, List.mem_cons_of_mem _ hsc1, ste, e, h1, h2, h3⟩

/-- C12 as stated fails: for a test with two state children, the first naming
the state `ste1` of the states table and the second naming `ste_missing`, which
is not a key of the states table, the Criterion appended has `ste_missing` as
its `state_ref` and still carries the operation and version of `ste1`. -/
theorem extract_criteria_stale_state_counterexample :
    extract_criteria
        (tests_loop [two_state_test] (hashtable_create, 0)).1
        (objects_loop [scenario_object ["openssl"]] (hashtable_create, 0)).1
        (states_loop [scenario_state "1.0.0"] (hashtable_create, 0)).1
        (some (oval_create (some "CVE-2020-0001") none)) scenario_criteria =
      some (some
        { cve := some "CVE-2020-0001"
          description := none
          criteria :=
            [{ tst_ref := some "tst1", ste_ref := some "ste_missing",
               obj_ref := some "obj1", obj_name := some "openssl",
               op := some "less than", version := some "1.0.0", complete := true }]
          complete := true }) ∧
    ((states_loop [scenario_state "1.0.0"] (hashtable_create, 0)).1.get
      (some "ste_missing")).isNone = true := by
  refine ⟨by decide, by decide⟩

/-- C12, amended: for every Criterion produced by the criterion branch of
`extract_criteria`, operation and version are present only if some state child
of the test record has a `state_ref` that is a key of the states table and names
a state containing an `evr` element; for a test record with at most one state
child that is the Criterion's own `state_ref`, so that a Criterion whose
`state_ref` does not resolve has operation and version absent. -/
theorem resolve_operation_version (tests : hashtable_t xmlNode)
    (objects : hashtable_t String) (states : hashtable_t xmlNode) (c : xmlNode) :
    (∀ oval, criterion_branch tests objects states oval c =
      append_criteria oval [resolve tests objects states c]) ∧
    ((resolve tests objects states c).op ≠ none ∨
        (resolve tests objects states c).version ≠ none →
      ∃ tst, tests.get (xmlGetProp c "test_ref") = some tst ∧
        ∃ sc ∈ children_named "state" tst.xmlChildrenNode,
          ∃ ste, states.get (xmlGetProp sc "state_ref") = some ste ∧
            ∃ e ∈ ste.xmlChildrenNode, e.name = "evr") ∧
    (∀ tst, tests.get (xmlGetProp c "test_ref") = some tst →
      (children_named "state" tst.xmlChildrenNode).length ≤ 1 →
      ((resolve tests objects states c).op ≠ none ∨
          (resolve tests objects states c).version ≠ none →
        ∃ ste, states.get (resolve tests objects states c).ste_ref = some ste ∧
          ∃ e ∈ ste.xmlChildrenNode, e.name = "evr") ∧
      (states.get (resolve tests objects states c).ste_ref = none →
        (resolve tests objects states c).op = none ∧
        (resolve tests objects states c).version = none)) := by
  refine ⟨fun oval => criterion_branch_eq tests objects states oval c, ?_, ?_⟩
  · intro h
    simp only [resolve, criterion_locals] at h
    cases ht : tests.get (xmlGetProp c "test_ref") with
    | none =>
      rw [ht] at h
      simp at h
    | some tst =>
      rw [ht] at h
      simp only [test_loop_eq] at h
      refine ⟨tst, rfl, ?_⟩
      rcases foldl_state_step states (children_named "state" tst.xmlChildrenNode)
        (none, none) with h1 | ⟨sc, hsc, ste, e, h1, h2, _⟩
      · rw [h1] at h
        simp at h
      · exact ⟨sc, hsc, ste, h1, e, (last_child_mem "evr" _ e h2).1,
          (last_child_mem "evr" _ e h2).2⟩
  · intro tst ht hlen
    have hres_op : (resolve tests objects states c).op =
        ((children_named "state" tst.xmlChildrenNode).foldl (state_step states)
          (none, none)).1 := by
      simp only [resolve, criterion_locals, ht, test_loop_eq]
    have hres_version : (resolve tests objects states c).version =
        ((children_named "state" tst.xmlChildrenNode).foldl (state_step states)
          (none, none)).2 := by
      simp only [resolve, criterion_locals, ht, test_loop_eq]
    have hres_ref : (resolve tests objects states c).ste_ref =
        ((last_child "state" tst.xmlChildrenNode).map
          (fun sc => xmlGetProp sc "state_ref")).getD none := by
      simp only [resolve, criterion_locals, ht, test_loop_eq]
    have hlast : last_child "state" tst.xmlChildrenNode =
        (children_named "state" tst.xmlChildrenNode).getLast? := rfl
    rw [hres_op, hres_version, hres_ref, hlast]
    cases hcs : children_named "state" tst.xmlChildrenNode with
    | nil => simp
    | cons sc rest =>
      rw [hcs] at hlen
      have hrest : rest = [] := by
        cases rest with
        | nil => rfl
        | cons a b => simp at hlen
      rw [hrest]
      simp only [List.foldl_cons, List.foldl_nil, List.getLast?_singleton,
        Option.map_some', Option.getD_some]
      unfold state_step
      cases hg : states.get (xmlGetProp sc "state_ref") with
      | none => simp
      | some ste =>
        simp only []
        rw [evr_loop_eq]
        cases he : last_child "evr" ste.xmlChildrenNode with
        | none => simp
        | some e =>
          refine ⟨fun _ => ⟨ste, rfl, e, (last_child_mem "evr" _ e he).1,
            (last_child_mem "evr" _ e he).2⟩, ?_⟩
          intro hcontra
          cases hcontra
/-- A key has a value in a table exactly when the table has an entry with that
key. -/
theorem get_ne_none_iff {α : Type} (t : hashtable_t α) (key : Option String) :
    t.get key ≠ none ↔ ∃ p ∈ t, p.1 = key := by
  unfold hashtable_t.get
  constructor
  · intro h
    cases hf : List.find? (fun p => p.1 == key) t with
    | none => rw [hf] at h; exact absurd rfl h
    | some p =>
      have h1 := List.find?_some hf
      exact ⟨p, List.mem_of_find?_eq_some hf, by simpa using h1⟩
  · rintro ⟨p, hp, hk⟩ h
    cases hf : List.find? (fun p => p.1 == key) t with
    | none =>
      rw [List.find?_eq_none] at hf
      exact hf p hp (by simpa using hk)
    | some q => rw [hf] at h; cases h

/-- C13: for every test record with one or more object children, the Criterion
that the criterion branch of `extract_criteria` appends has as `object_ref` the
`object_ref` of the last object child and as `object_name` the entry of the
objects table for exactly that `object_ref`: `object_name` is present if and
only if that `object_ref` is a key of the objects table, whatever the earlier
object children resolved to. -/
theorem resolve_last_object (tests : hashtable_t xmlNode)
    (objects : hashtable_t String) (states : hashtable_t xmlNode)
    (c tst oc : xmlNode)
    (ht : tests.get (xmlGetProp c "test_ref") = some tst)
    (hoc : last_child "object" tst.xmlChildrenNode = some oc) :
    (∀ oval, criterion_branch tests objects states oval c =
      append_criteria oval [resolve tests objects states c]) ∧
    (resolve tests objects states c).obj_ref = xmlGetProp oc "object_ref" ∧
    (resolve tests objects states c).obj_name =
      objects.get (xmlGetProp oc "object_ref") ∧
    ((resolve tests objects states c).obj_name ≠ none ↔
      ∃ p ∈ objects, p.1 = xmlGetProp oc "object_ref") := by
  have h1 : (resolve tests objects states c).obj_ref = xmlGetProp oc "object_ref" := by
    simp only [resolve, criterion_locals, ht, test_loop_eq, hoc, Option.map_some',
      Option.getD_some]
  have h2 : (resolve tests objects states c).obj_name =
      objects.get (xmlGetProp oc "object_ref") := by
    simp only [resolve, criterion_locals, ht, test_loop_eq, hoc, Option.map_some',
      Option.getD_some]
  refine ⟨fun oval => criterion_branch_eq tests objects states oval c, h1, h2, ?_⟩
  rw [h2]
  exact get_ne_none_iff objects _

/-- C13, at a concrete input: a test with two object children, the first naming
`obj1` of the objects table, the last naming `obj_missing`; the Criterion has
`obj_missing` as `object_ref` and no object name. -/
theorem resolve_last_object_witness :
    (resolve (tests_loop [two_object_test] (hashtable_create, 0)).1
      (objects_loop [scenario_object ["openssl"]] (hashtable_create, 0)).1
      (states_loop [scenario_state "1.0.0"] (hashtable_create, 0)).1
      (.element "criterion" [("test_ref", "tst1")] [])).obj_ref = some "obj_missing" ∧
    (resolve (tests_loop [two_object_test] (hashtable_create, 0)).1
      (objects_loop [scenario_object ["openssl"]] (hashtable_create, 0)).1
      (states_loop [scenario_state "1.0.0"] (hashtable_create, 0)).1
      (.element "criterion" [("test_ref", "tst1")] [])).obj_name = none :=
  ⟨(resolve_last_object (tests_loop [two_object_test] (hashtable_create, 0)).1
      (objects_loop [scenario_object ["openssl"]] (hashtable_create, 0)).1
      (states_loop [scenario_state "1.0.0"] (hashtable_create, 0)).1
      (.element "criterion" [("test_ref", "tst1")] [])
      two_object_test (.element "object" [("object_ref", "obj_missing")] [])
      rfl rfl).2.1,
   (resolve_last_object (tests_loop [two_object_test] (hashtable_create, 0)).1
      (objects_loop [scenario_object ["openssl"]] (hashtable_create, 0)).1
      (states_loop [scenario_state "1.0.0"] (hashtable_create, 0)).1
      (.element "criterion" [("test_ref", "tst1")] [])
      two_object_test (.element "object" [("object_ref", "obj_missing")] [])
      rfl rfl).2.2.1⟩
/-- C14: for every record and every `add_criterion` call on it, if
`is_complete` was true before the call it is true after the call; when the
Criterion stored by the call is incomplete, `is_complete` after the call is
what it was before; when it is complete, `is_complete` is true after the
call. -/
theorem add_criterion_monotone (this : private_oval_t)
    (tst ste obj obj_name op version : Option String) :
    (is_complete this = true →
      is_complete (add_criterion this tst ste obj obj_name op version) = true) ∧
    (stored_complete (add_criterion this tst ste obj obj_name op version) = some false →
      is_complete (add_criterion this tst ste obj obj_name op version) =
        is_complete this) ∧
    (stored_complete (add_criterion this tst ste obj obj_name op version) = some true →
      is_complete (add_criterion this tst ste obj obj_name op version) = true) := by
  refine ⟨?_, ?_, ?_⟩
  · intro h
    simp only [is_complete] at h
    simp only [is_complete, add_criterion, h]
    split <;> rfl
  · intro h
    simp only [stored_complete, add_criterion, List.getLast?_concat, Option.map_some',
      Option.some.injEq] at h
    simp only [is_complete, add_criterion, h]
    rfl
  · intro h
    simp only [stored_complete, add_criterion, List.getLast?_concat, Option.map_some',
      Option.some.injEq] at h
    simp only [is_complete, add_criterion, h]
    rfl
/-- C15 fails on the code: the Criterion that `extract_criteria` stores for a
state whose `evr` child has no operation attribute is incomplete, has its
version present and its operation absent, and `print`, which tests
`criterion->version` only, renders the operation and version line with the
absent operation; a Criterion without `test_ref` has its `test_ref` line
rendered all the same. -/
theorem print_renders_absent_operation :
    extract_criteria
        (tests_loop [scenario_test] (hashtable_create, 0)).1
        (objects_loop [scenario_object ["openssl"]] (hashtable_create, 0)).1
        (states_loop
          [.element "dpkginfo_state" [("id", "ste1")]
            [.element "evr" [("datatype", "debian_evr_string")] [.text "1.0.0"]]]
          (hashtable_create, 0)).1
        (some (oval_create none none)) scenario_criteria =
      some (some
        { cve := none
          description := none
          criteria :=
            [{ tst_ref := some "tst1", ste_ref := some "ste1", obj_ref := some "obj1",
               obj_name := some "openssl", op := none, version := some "1.0.0",
               complete := false }]
          complete := false }) ∧
    print
        { cve := none
          description := none
          criteria :=
            [{ tst_ref := some "tst1", ste_ref := some "ste1", obj_ref := some "obj1",
               obj_name := some "openssl", op := none, version := some "1.0.0",
               complete := false }]
          complete := false } =
      [ DBG3 "  tst1", DBG3 "    obj1", DBG3 "      openssl", DBG3 "    ste1",
        DBG3 "      (null) \x271.0.0\x27" ] ∧
    print_criterion
        { tst_ref := none, ste_ref := none, obj_ref := none, obj_name := none,
          op := none, version := none, complete := false } =
      [DBG3 "  (null)"] := by
  refine ⟨by decide, by decide, by decide⟩

/-- What `print` does render of an incomplete Criterion whose `test_ref` is
present and whose operation is present whenever its version is: the `test_ref`
line, the `object_ref` line only if `object_ref` is present, the object name
line only if `object_ref` and the object name are present, the `state_ref` line
only if `state_ref` is present, and the operation and version line only if
`state_ref`, operation and version are present; no line renders an absent
field. -/
theorem print_criterion_present_fields (cr : criterion_t) (t : String)
    (hc : cr.complete = false) (ht : cr.tst_ref = some t)
    (hop : cr.version ≠ none → cr.op ≠ none) :
    print_criterion cr =
      [DBG3 ("  " ++ t)] ++
      (match cr.obj_ref with
       | some r =>
         DBG3 ("    " ++ r) ::
           (match cr.obj_name with
            | some n => [DBG3 ("      " ++ n)]
            | none => [])
       | none => []) ++
      (match cr.ste_ref with
       | some s =>
         DBG3 ("    " ++ s) ::
           (match cr.version, cr.op with
            | some v, some p => [DBG3 ("      " ++ p ++ " \x27" ++ v ++ "\x27")]
            | _, _ => [])
       | none => []) := by
  obtain ⟨t1, s, o, n, p, v, b⟩ := cr
  simp only [] at hc ht hop
  unfold print_criterion
  rw [if_neg (by simp [hc])]
  subst ht
  cases o <;> cases n <;> cases s <;> cases v <;> cases p <;>
    simp [fmt_s] at hop ⊢

/-- The rendering of an incomplete Criterion with `test_ref` and `object_ref`
only. -/
theorem print_criterion_present_fields_example :
    print_criterion
        { tst_ref := some "tst1", ste_ref := none, obj_ref := some "obj1",
          obj_name := none, op := none, version := none, complete := false } =
      [DBG3 "  tst1", DBG3 "    obj1"] :=
  print_criterion_present_fields _ "tst1" rfl rfl (fun h => absurd rfl h)
/-! ## The rendering (oval.c) -/

/-- Every line of `print_metadata` is at level 2 when the level given is 2, and
at level 3 otherwise. -/
theorem print_metadata_level (this : private_oval_t) (level : Nat) :
    ∀ l ∈ print_metadata this level, l.1 = if level = 2 then 2 else 3 := by
  intro l hl
  unfold print_metadata at hl
  have hd : ∀ s : List Nat, (dbg_at level s).1 = if level = 2 then 2 else 3 := by
    intro s
    unfold dbg_at
    split <;> rfl
  rcases List.mem_append.mp hl with h | h
  · cases hc : this.cve with
    | none => rw [hc] at h; cases h
    | some c =>
      rw [hc] at h
      rw [List.mem_singleton.mp h]
      exact hd _
  · cases hc : this.description with
    | none => rw [hc] at h; cases h
    | some d =>
      rw [hc] at h
      simp only [] at h
      split at h
      · rw [List.mem_singleton.mp h]
        exact hd _
      · rw [List.mem_singleton.mp h]
        exact hd _

/-- A complete Criterion is rendered in five lines, all at level 2. -/
theorem print_criterion_complete (c : criterion_t) (h : c.complete = true) :
    (∀ l ∈ print_criterion c, l.1 = 2) ∧ ∃ l ∈ print_criterion c, l.1 = 2 := by
  unfold print_criterion
  rw [if_pos h]
  constructor
  · intro l hl
    simp only [List.mem_cons, List.mem_singleton, List.not_mem_nil, or_false] at hl
    rcases hl with h1 | h1 | h1 | h1 | h1 <;> subst h1 <;> rfl
  · exact ⟨_, List.mem_cons_self _ _, rfl⟩

/-- An incomplete Criterion is rendered at level 3 only. -/
theorem print_criterion_incomplete (c : criterion_t) (h : c.complete = false) :
    ∀ l ∈ print_criterion c, l.1 = 3 := by
  obtain ⟨t, s, o, n, p, v, b⟩ := c
  simp only [] at h
  unfold print_criterion
  rw [if_neg (by simp [h])]
  cases o <;> cases n <;> cases s <;> cases v <;> simp [DBG3]

/-- The lines of the criteria are the lines of each Criterion. -/
theorem mem_print_criteria (cs : List criterion_t) (l : dbg_line) :
    l ∈ print_criteria cs ↔ ∃ c ∈ cs, l ∈ print_criterion c := by
  induction cs with
  | nil => simp [print_criteria]
  | cons c rest ih =>
    simp only [print_criteria, List.mem_append, ih, List.mem_cons, exists_eq_or_imp]

/-- C16: for every record built by `oval_create` and any sequence of
`add_criterion` calls, `print` emits at least one line at level 2 if and only
if the record is complete; for an incomplete record every emitted line is at
level 3; every incomplete Criterion of the record, also of a complete one, is
rendered at level 3 only. -/
theorem print_levels (cve description : Option String) (calls : List criterion_args) :
    ((∃ l ∈ print (add_criteria calls (oval_create cve description)), l.1 = 2) ↔
      is_complete (add_criteria calls (oval_create cve description)) = true) ∧
    (is_complete (add_criteria calls (oval_create cve description)) = false →
      ∀ l ∈ print (add_criteria calls (oval_create cve description)), l.1 = 3) ∧
    (∀ c ∈ (add_criteria calls (oval_create cve description)).criteria,
      c.complete = false → ∀ l ∈ print_criterion c, l.1 = 3) := by
  have inv := add_criteria_invariant calls (oval_create cve description)
    (by simp [oval_create])
  generalize add_criteria calls (oval_create cve description) = r at inv
  have hinc : is_complete r = false → ∀ l ∈ print r, l.1 = 3 := by
    intro hr l hl
    simp only [is_complete] at hr
    unfold print at hl
    rcases List.mem_append.mp hl with h | h
    · have h1 := print_metadata_level r _ l h
      rw [hr] at h1
      simpa using h1
    · obtain ⟨c, hc, hlc⟩ := (mem_print_criteria r.criteria l).mp h
      have hcf : c.complete = false := by
        cases hcc : c.complete with
        | false => rfl
        | true =>
          have := inv.mpr ⟨c, hc, hcc⟩
          rw [hr] at this
          cases this
      exact print_criterion_incomplete c hcf l hlc
  refine ⟨?_, hinc, ?_⟩
  · constructor
    · rintro ⟨l, hl, h2⟩
      cases hr : is_complete r with
      | true => rfl
      | false =>
        have h3 := hinc hr l hl
        rw [h2] at h3
        cases h3
    · intro hr
      simp only [is_complete] at hr
      obtain ⟨c, hc, hcc⟩ := inv.mp hr
      obtain ⟨l, hl, h2⟩ := (print_criterion_complete c hcc).2
      refine ⟨l, ?_, h2⟩
      unfold print
      exact List.mem_append.mpr (Or.inr ((mem_print_criteria r.criteria l).mpr ⟨c, hc, hl⟩))
  · intro c _ hcf
    exact print_criterion_incomplete c hcf
/-! ## The driver (oval-updater.c): the enumeration of the definitions -/

/-- After the end of an iteration the record pointer is NULL. -/
theorem finish_definition_oval (st : driver_t) : (finish_definition st).oval = none := by
  unfold finish_definition
  cases h : st.oval <;> simp [h]

/-- Without a record, the end of an iteration changes nothing. -/
theorem finish_definition_none (st : driver_t) (h : st.oval = none) :
    finish_definition st = st := by
  unfold finish_definition
  rw [h]

/-- Started with a NULL record pointer, the enumeration of the definitions
passes over every child that is not a definition of class `vulnerability`. -/
theorem definitions_loop_filter (tests : hashtable_t xmlNode)
    (objects : hashtable_t String) (states : hashtable_t xmlNode)
    (cs : List xmlNode) (st : driver_t) (h : st.oval = none) :
    definitions_loop tests objects states cs st =
      definitions_loop tests objects states (cs.filter is_vulnerability) st := by
  induction cs generalizing st with
  | nil => rfl
  | cons d rest ih =>
    by_cases hv : d.name = "definition" ∧ xmlGetProp d "class" = some "vulnerability"
    · have hb : is_vulnerability d = true := by
        unfold is_vulnerability
        simpa using hv
      have hnb : ¬ xmlIsBlankNode d = true := by
        intro hbl
        have hn := name_of_blank d hbl
        rw [hv.1] at hn
        exact absurd hn (by decide)
      rw [List.filter_cons, if_pos hb, definitions_loop, definitions_loop]
      simp only [if_neg hnb, if_pos hv]
      cases definition_loop tests objects states d.xmlChildrenNode
          { st with vars := { cve_ref := none, description := none, title := none } } with
      | none => rfl
      | some st1 =>
        simp only []
        exact ih _ (finish_definition_oval st1)
    · have hb : ¬ is_vulnerability d = true := by
        unfold is_vulnerability
        simpa using hv
      rw [List.filter_cons, if_neg hb, definitions_loop]
      by_cases hbl : xmlIsBlankNode d = true
      · rw [if_pos hbl]
        exact ih st h
      · rw [if_neg hbl, if_neg hv, finish_definition_none st h]
        exact ih st h

/-- C17: for every definitions section, the enumeration of the definitions has
the result it has on the definition children of class `vulnerability` alone: a
child that is not a definition, or a definition whose class attribute is absent
or has another value, leaves the records printed, the lines written and both
counters as they are. On a document whose definitions are of class `patch`,
without class, or not definitions, no record is printed and the count is 0 of
0. -/
theorem definitions_loop_vulnerability_only (tests : hashtable_t xmlNode)
    (objects : hashtable_t String) (states : hashtable_t xmlNode)
    (cs : List xmlNode) (st : driver_t) :
    definitions_loop tests objects states cs { st with oval := none } =
      definitions_loop tests objects states (cs.filter is_vulnerability)
        { st with oval := none } ∧
    (∀ d, is_vulnerability d = false →
      definitions_loop tests objects states [d] { st with oval := none } =
        some { st with oval := none }) ∧
    (∀ d, is_vulnerability d = true ↔
      d.name = "definition" ∧ xmlGetProp d "class" = some "vulnerability") ∧
    (process_oval_file "oval.xml" "os" "uri"
        (some (definitions_document
          [ .element "definition" [("class", "patch")]
              [scenario_metadata, scenario_criteria],
            .text "\n    ",
            .element "definition" [("id", "def2")]
              [scenario_metadata, scenario_criteria],
            .element "definition_group" [("class", "vulnerability")]
              [scenario_metadata, scenario_criteria] ]))).map
        (fun r => (r.result, r.printed, r.log)) =
      some (EXIT_SUCCESS, [],
        [ DBG1 "1 tests", DBG1 "1 objects", DBG1 "1 states",
          DBG1 "0 of 0 definitions are complete" ]) := by
  refine ⟨definitions_loop_filter tests objects states cs _ rfl, ?_, ?_, by decide⟩
  · intro d hd
    rw [definitions_loop_filter tests objects states [d] _ rfl, List.filter_cons]
    simp only [hd]
    rfl
  · intro d
    unfold is_vulnerability
    simp
/-- The counter of the tests after the enumeration: the number of
`dpkginfo_test` children added to it, as a `uint32_t`. -/
theorem tests_loop_count (cs : List xmlNode) (acc : hashtable_t xmlNode × Nat)
    (h : acc.2 < 4294967296) :
    (tests_loop cs acc).2 =
      (acc.2 + (children_named "dpkginfo_test" cs).length) % 4294967296 := by
  induction cs generalizing acc with
  | nil =>
    simp only [tests_loop, children_named, List.filter_nil, List.length_nil, Nat.add_zero]
    exact (Nat.mod_eq_of_lt h).symm
  | cons c rest ih =>
    rw [tests_loop, children_named_cons]
    by_cases hb : xmlIsBlankNode c = true
    · have hn := name_of_blank c hb
      have h1 : c.name ≠ "dpkginfo_test" := by rw [hn]; decide
      rw [if_pos hb, if_neg h1]
      exact ih acc h
    · rw [if_neg hb]
      by_cases h1 : c.name = "dpkginfo_test"
      · rw [if_pos h1, if_pos h1, ih _ (Nat.mod_lt _ (by decide))]
        simp only [uint32_inc, List.length_cons]
        rw [Nat.mod_add_mod]
        congr 1
        omega
      · rw [if_neg h1, if_neg h1]
        exact ih acc h

/-- When the tests table has no entry for the `test_ref` of a leaf, the
Criterion of the leaf has `test_ref` only and is incomplete. -/
theorem resolve_unknown_test (tests : hashtable_t xmlNode)
    (objects : hashtable_t String) (states : hashtable_t xmlNode) (c : xmlNode)
    (h : tests.get (xmlGetProp c "test_ref") = none) :
    resolve tests objects states c =
      { tst_ref := xmlGetProp c "test_ref", ste_ref := none, obj_ref := none,
        obj_name := none, op := none, version := none, complete := false } := by
  simp [resolve, criterion_locals, h]

/-- The ids of a tests section of numbered tests are runs of letters of
distinct lengths. -/
theorem section_ids_numbered_tests (n : Nat) :
    section_ids "dpkginfo_test" (numbered_tests n) =
      (List.range n).map (fun i => String.mk (List.replicate i 'a')) := by
  unfold numbered_tests
  induction List.range n with
  | nil => rfl
  | cons i rest ih =>
    have hn : (numbered_test i).name = "dpkginfo_test" := rfl
    rw [List.map_cons, section_ids_cons, if_pos hn, ih]
    rfl

/-- All children of a tests section of numbered tests are `dpkginfo_test`
elements. -/
theorem children_named_numbered_tests (n : Nat) :
    children_named "dpkginfo_test" (numbered_tests n) = numbered_tests n := by
  unfold numbered_tests
  induction List.range n with
  | nil => rfl
  | cons i rest ih =>
    have hn : (numbered_test i).name = "dpkginfo_test" := rfl
    rw [List.map_cons, children_named_cons, if_pos hn, ih]

/-- C18 as stated fails: in a tests section with 4294967296 children
`dpkginfo_test`, their ids unique, the counter `tst_count`, a `uint32_t`, is 0
after the enumeration, so the line logged is `0 tests`. -/
theorem tests_index_counterexample :
    (section_ids "dpkginfo_test" (numbered_tests 4294967296)).Nodup ∧
    (children_named "dpkginfo_test" (numbered_tests 4294967296)).length = 4294967296 ∧
    (tests_loop (numbered_tests 4294967296) (hashtable_create, 0)).2 = 0 := by
  have hlen : ∀ n, (children_named "dpkginfo_test" (numbered_tests n)).length = n := by
    intro n
    rw [children_named_numbered_tests]
    unfold numbered_tests
    rw [List.length_map, List.length_range]
  refine ⟨?_, hlen _, ?_⟩
  · rw [section_ids_numbered_tests]
    refine List.Nodup.map ?_ (List.nodup_range _)
    intro i j hij
    have h1 := congrArg String.length hij
    simpa [String.length] using h1
  · rw [tests_loop_count _ _ (by decide), hlen]
    exact Nat.mod_self _

/-- C18, amended: for every tests section with unique ids, the tests table has
an entry for an id if and only if a `dpkginfo_test` child carries that id, and
the entry is that child; so a criterion whose `test_ref` is carried by no
`dpkginfo_test` child, only by test elements of another kind, resolves to a
Criterion with only `test_ref` set and complete false; the test count logged
equals the number of `dpkginfo_test` children modulo 2^32, the number itself
when it is below 2^32. -/
theorem tests_index (cs : List xmlNode)
    (h : (section_ids "dpkginfo_test" cs).Nodup) :
    (∀ id : String,
      (tests_loop cs (hashtable_create, 0)).1.get (some id) ≠ none ↔
        ∃ tst ∈ cs, tst.name = "dpkginfo_test" ∧ xmlGetProp tst "id" = some id) ∧
    (∀ (id : String) (tst : xmlNode), tst ∈ cs → tst.name = "dpkginfo_test" →
      xmlGetProp tst "id" = some id →
      (tests_loop cs (hashtable_create, 0)).1.get (some id) = some tst) ∧
    (∀ (objects : hashtable_t String) (states : hashtable_t xmlNode)
        (oval : private_oval_t) (tag : String) (ps : List (String × String))
        (c : xmlNode) (s : String),
      c.name = "criterion" → xmlGetProp c "test_ref" = some s →
      (∀ tst ∈ cs, xmlGetProp tst "id" = some s → tst.name ≠ "dpkginfo_test") →
      extract_criteria (tests_loop cs (hashtable_create, 0)).1 objects states
          (some oval) (.element tag ps [c]) =
        some (some
          { oval with
            criteria := oval.criteria ++
              [{ tst_ref := some s, ste_ref := none, obj_ref := none,
                 obj_name := none, op := none, version := none,
                 complete := false }] })) ∧
    (tests_loop cs (hashtable_create, 0)).2 =
      (children_named "dpkginfo_test" cs).length % 4294967296 ∧
    ((children_named "dpkginfo_test" cs).length < 4294967296 →
      (tests_loop cs (hashtable_create, 0)).2 =
        (children_named "dpkginfo_test" cs).length) := by
  have hentry : ∀ id : String,
      (tests_loop cs (hashtable_create, 0)).1.get (some id) ≠ none ↔
        ∃ tst ∈ cs, tst.name = "dpkginfo_test" ∧ xmlGetProp tst "id" = some id := by
    intro id
    constructor
    · intro hne
      cases hg : (tests_loop cs (hashtable_create, 0)).1.get (some id) with
      | none => exact absurd hg hne
      | some tst =>
        rw [tests_loop_get] at hg
        cases hl : (children_with_id "dpkginfo_test" (some id) cs).getLast? with
        | none =>
          rw [hl] at hg
          simp [hashtable_create, hashtable_t.get] at hg
        | some x =>
          have hm := List.mem_of_getLast?_eq_some hl
          unfold children_with_id at hm
          rw [List.mem_filter] at hm
          simp only [Bool.and_eq_true, beq_iff_eq] at hm
          exact ⟨x, hm.1, hm.2.1, hm.2.2⟩
    · rintro ⟨tst, ht, hn, hid⟩
      rw [tests_get_unique cs h tst id ht hn hid]
      simp
  have hcount : (tests_loop cs (hashtable_create, 0)).2 =
      (children_named "dpkginfo_test" cs).length % 4294967296 := by
    rw [tests_loop_count cs _ (by decide)]
    simp
  refine ⟨hentry, ?_, ?_, hcount, ?_⟩
  · intro id tst ht hn hid
    exact tests_get_unique cs h tst id ht hn hid
  · intro objects states oval tag ps c s hc hs hno
    have hget : (tests_loop cs (hashtable_create, 0)).1.get (xmlGetProp c "test_ref") =
        none := by
      rw [hs]
      cases hg : (tests_loop cs (hashtable_create, 0)).1.get (some s) with
      | none => rfl
      | some tst =>
        have hne : (tests_loop cs (hashtable_create, 0)).1.get (some s) ≠ none := by
          rw [hg]
          simp
        obtain ⟨t1, ht1, hn1, hid1⟩ := (hentry s).mp hne
        exact absurd hn1 (hno t1 ht1 hid1)
    rw [extract_criteria_some]
    simp only [criterion_leaves, criterion_leaves_list, hc, if_true, List.append_nil,
      List.map_cons, List.map_nil,
      resolve_unknown_test (tests_loop cs (hashtable_create, 0)).1 objects states c hget,
      hs, append_criteria]
    simp
  · intro hlt
    rw [hcount, Nat.mod_eq_of_lt hlt]

/-- C18, amended, at a concrete input: the tests section of the scenario, whose
single `dpkginfo_test` carries `tst1`, and one test of another kind; the count
is 1. -/
theorem tests_index_witness :
    (tests_loop
        [scenario_test, .element "rpminfo_test" [("id", "tst2")] []]
        (hashtable_create, 0)).2 = 1 :=
  ((tests_index [scenario_test, .element "rpminfo_test" [("id", "tst2")] []]
      (by decide)).2.2.2.1).trans (by decide)
/-- C19 fails on the code: for a vulnerability definition whose metadata has
neither a reference nor a title child and whose criteria resolve to a complete
Criterion, the record is created, printed and counted as complete, but
`def_count` is not incremented: the final line is `1 of 0 definitions are
complete`. The same document with a reference child in the metadata ends with `1
of 1`. -/
theorem process_oval_file_complete_of_none :
    (process_oval_file "oval.xml" "os" "uri"
        (some (scenario_document ["openssl"] "1.0.0"
          [ .element "metadata" []
              [.element "description" [] [.text "openssl could be made to crash."]],
            scenario_criteria ]))).map
        (fun r => (r.result, r.printed.map (fun o => o.complete), r.log.getLast?)) =
      some (EXIT_SUCCESS, [true], some (DBG1 "1 of 0 definitions are complete")) ∧
    (process_oval_file "oval.xml" "os" "uri"
        (some (scenario_document ["openssl"] "1.0.0"
          [scenario_metadata, scenario_criteria]))).map
        (fun r => (r.result, r.printed.map (fun o => o.complete), r.log.getLast?)) =
      some (EXIT_SUCCESS, [true], some (DBG1 "1 of 1 definitions are complete")) := by
  refine ⟨by decide, by decide⟩
/-! ## Termination of the walker -/

mutual
/-- Within a bound on the depth of its calls that is at least the depth of the
criteria subtree, the bounded walker returns what `extract_criteria`
returns. -/
theorem extract_criteria_bounded_eq (tests : hashtable_t xmlNode)
    (objects : hashtable_t String) (states : hashtable_t xmlNode) :
    ∀ (node : xmlNode) (depth : Nat) (oval : Option private_oval_t),
      criteria_depth node ≤ depth →
      extract_criteria_bounded tests objects states depth oval node =
        some (extract_criteria tests objects states oval node)
  | .text _, depth, oval, h => by
    cases depth with
    | zero => simp [criteria_depth] at h
    | succ d => simp [extract_criteria_bounded, extract_criteria]
  | .element _ _ cs, depth, oval, h => by
    cases depth with
    | zero => simp [criteria_depth] at h
    | succ d =>
      simp only [extract_criteria_bounded, extract_criteria]
      have h1 : criteria_depth_list cs ≤ d := by
        simp only [criteria_depth] at h
        omega
      exact extract_criteria_bounded_loop_eq tests objects states cs d oval h1
/-- Within a bound that is at least the depth of the deepest criteria subtree
among the children, the bounded loop returns what the loop of
`extract_criteria` returns. -/
theorem extract_criteria_bounded_loop_eq (tests : hashtable_t xmlNode)
    (objects : hashtable_t String) (states : hashtable_t xmlNode) :
    ∀ (cs : List xmlNode) (depth : Nat) (oval : Option private_oval_t),
      criteria_depth_list cs ≤ depth →
      extract_criteria_bounded_loop tests objects states depth oval cs =
        some (extract_criteria_loop tests objects states oval cs)
  | [], depth, oval, _ => by
    simp [extract_criteria_bounded_loop, extract_criteria_loop]
  | c :: rest, depth, oval, h => by
    have hrest : criteria_depth_list rest ≤ depth := by
      simp only [criteria_depth_list] at h
      omega
    unfold extract_criteria_bounded_loop extract_criteria_loop
    by_cases hb : xmlIsBlankNode c = true
    · simp only [if_pos hb]
      exact extract_criteria_bounded_loop_eq tests objects states rest depth oval hrest
    · simp only [if_neg hb]
      by_cases h1 : c.name = "criterion"
      · simp only [if_pos h1]
        cases oval with
        | none => rfl
        | some o =>
          simp only []
          exact extract_criteria_bounded_loop_eq tests objects states rest depth _ hrest
      · simp only [if_neg h1]
        by_cases h2 : c.name = "criteria"
        · have hc : criteria_depth c ≤ depth := by
            simp only [criteria_depth_list, if_pos h2] at h
            omega
          simp only [if_pos h2]
          rw [extract_criteria_bounded_eq tests objects states c depth oval hc]
          cases extract_criteria tests objects states oval c with
          | none => rfl
          | some oval1 =>
            simp only []
            exact extract_criteria_bounded_loop_eq tests objects states rest depth oval1
              hrest
        · simp only [if_neg h2]
          exact extract_criteria_bounded_loop_eq tests objects states rest depth oval hrest
end

mutual
/-- The criteria subtree of a node is no deeper than the tree below the
node. -/
theorem criteria_depth_le_tree_depth :
    ∀ (node : xmlNode), criteria_depth node ≤ tree_depth node
  | .text _ => by simp [criteria_depth, tree_depth]
  | .element _ _ cs => by
    simp only [criteria_depth, tree_depth]
    have := criteria_depth_list_le_tree_depth_list cs
    omega
/-- The criteria subtrees among a chain of siblings are no deeper than the
trees below them. -/
theorem criteria_depth_list_le_tree_depth_list :
    ∀ (cs : List xmlNode), criteria_depth_list cs ≤ tree_depth_list cs
  | [] => by simp [criteria_depth_list, tree_depth_list]
  | c :: rest => by
    simp only [criteria_depth_list, tree_depth_list]
    have h1 := criteria_depth_le_tree_depth c
    have h2 := criteria_depth_list_le_tree_depth_list rest
    by_cases h : c.name = "criteria"
    · simp only [if_pos h]
      omega
    · simp only [if_neg h]
      omega
end

/-- C20: `extract_criteria` is a total function on the finite XML tree, defined
by structural recursion that descends only into the children named `criteria`:
on a record it returns a record, on a NULL pointer it returns or faults, and in
both cases the calls nest no deeper than the depth of the criteria subtree of
the node, which is at most the depth of the tree: run with any bound on the
call depth that is at least that depth, the walker gives the same result. On a
tree with one nested group beside a deeper subtree of another tag, the bound 2
suffices and the bound 1 does not, while the tree has depth 5. -/
theorem extract_criteria_terminates (tests : hashtable_t xmlNode)
    (objects : hashtable_t String) (states : hashtable_t xmlNode)
    (node : xmlNode) (oval : private_oval_t) :
    (∃ r, extract_criteria tests objects states (some oval) node = some (some r)) ∧
    (extract_criteria tests objects states none node = some none ∨
      extract_criteria tests objects states none node = none) ∧
    (∀ (p : Option private_oval_t) (depth : Nat), criteria_depth node ≤ depth →
      extract_criteria_bounded tests objects states depth p node =
        some (extract_criteria tests objects states p node)) ∧
    criteria_depth node ≤ tree_depth node ∧
    (criteria_depth nested_criteria = 2 ∧ tree_depth nested_criteria = 5 ∧
      extract_criteria_bounded [] [] [] 1 (some (oval_create none none))
        nested_criteria = none ∧
      extract_criteria_bounded [] [] [] 2 (some (oval_create none none))
        nested_criteria =
        some (extract_criteria [] [] [] (some (oval_create none none))
          nested_criteria)) := by
  refine ⟨⟨_, extract_criteria_some tests objects states node oval⟩, ?_,
    fun p depth h => extract_criteria_bounded_eq tests objects states node depth p h,
    criteria_depth_le_tree_depth node, by decide, by decide, by decide, by decide⟩
  by_cases h : criterion_leaves node = []
  · exact Or.inl ((extract_criteria_none tests objects states node).1 h)
  · exact Or.inr ((extract_criteria_none tests objects states node).2 h)

end OvalUpdater
